import Mathlib

/-!
Verification development for the UnifiedBetting repository.

The Python sources under `backend/` are shallowly embedded here:
  * `backend/utils/pod_utils.py` — odds arithmetic, no-vig computation,
    team-name normalization, period validation and the EV engine
    (`analyze_markets_for_ev` / `_analyze_1h_markets_for_ev`);
  * `backend/match_games.py` — the event matcher (`match_pinnacle_to_betbck`).

Python runtime values are modelled by the inductive type `Value` (a JSON-like
universe).  Python `float` is modelled by `ℚ` (exact arithmetic); the handful
of runtime-formatting operations on floats (`str(x)`, `f"{x:.2f}"`), whose
exact output depends on CPython double formatting, are modelled by fixed
computable rendering functions whose exact text no claim depends on.
Operations that can raise in Python return `Except PyErr _`; `try/except`
blocks in the source are modelled by explicit handlers.  External libraries
(`rapidfuzz.token_set_ratio`, `datetime.fromisoformat`, and the transcendental
power iteration inside `adjust_power_probabilities`) are taken as parameters
of the functions that call them.
-/

set_option maxHeartbeats 2000000
set_option maxRecDepth 20000
set_option allowUnsafeReducibility true

attribute [local semireducible] Rat.mul Rat.add Rat.inv Rat.sub

namespace UB

/-- Python runtime values relevant to this code base: `None`, booleans,
numbers (ints and floats conflated, modelled exactly as rationals), strings,
lists and string-keyed dicts. -/
inductive Value where
  | vnone  : Value
  | vbool  : Bool → Value
  | vnum   : ℚ → Value
  | vstr   : String → Value
  | vlist  : List Value → Value
  | vdict  : List (String × Value) → Value
deriving Repr

/-- Python exception kinds (coarse). -/
inductive PyErr where
  | typeError | attributeError | keyError | valueError | zeroDivisionError
deriving Repr, DecidableEq

/-- First-match association-list lookup (Python dicts have unique keys). -/
def dlookup (xs : List (String × Value)) (k : String) : Option Value :=
  match xs with
  | [] => none
  | (k', v) :: rest => if k' = k then some v else dlookup rest k

/-- Python truthiness. -/
def truthy : Value → Bool
  | .vnone => false
  | .vbool b => b
  | .vnum q => q != 0
  | .vstr s => s ≠ ""
  | .vlist xs => !xs.isEmpty
  | .vdict xs => !xs.isEmpty

/-- `v.get(k, d)` — raises `AttributeError` when `v` is not a dict. -/
def pyGetD (v : Value) (k : String) (d : Value) : Except PyErr Value :=
  match v with
  | .vdict xs => .ok ((dlookup xs k).getD d)
  | _ => .error .attributeError

/-- `v[k]` — `KeyError` when missing, `TypeError` when not a dict. -/
def pySub (v : Value) (k : String) : Except PyErr Value :=
  match v with
  | .vdict xs =>
    match dlookup xs k with
    | some x => .ok x
    | none => .error .keyError
  | _ => .error .typeError

/-- Python `a or b` for values: the first operand if truthy, else the second. -/
def pyOr (a b : Value) : Value := if truthy a then a else b

/-- `isinstance(v, dict)`. -/
def isDict : Value → Bool
  | .vdict _ => true
  | _ => false

/-- `isinstance(v, (int, float))` — in Python this includes `bool`. -/
def isNumeric : Value → Bool
  | .vnum _ => true
  | .vbool _ => true
  | _ => false

/-- `v is None`. -/
def isNone : Value → Bool
  | .vnone => true
  | _ => false

/-- Numeric value of an int/float/bool (Python `True == 1`, `False == 0`). -/
def numQ : Value → ℚ
  | .vnum q => q
  | .vbool b => if b then 1 else 0
  | _ => 0

/-- ASCII whitespace as recognised by Python's `str.strip` / `\s`. -/
def isPySpace (c : Char) : Bool :=
  c = ' ' ∨ c = '\t' ∨ c = '\n' ∨ c = '\r' ∨ c = '\x0b' ∨ c = '\x0c'

/-- Python `str.strip()` on a character list. -/
def stripChars (cs : List Char) : List Char :=
  ((cs.dropWhile isPySpace).reverse.dropWhile isPySpace).reverse

/-- Python `str.strip()`. -/
def pyStrip (s : String) : String :=
  String.mk (stripChars s.data)

/-- Rendering of a rational as a decimal-looking literal; stands in for
CPython float `repr`.  No claim depends on the exact text produced. -/
def reprQ (q : ℚ) : String :=
  if q.den = 1 then toString q.num
  else toString q.num ++ "/" ++ toString q.den

/-- `str(v)` — stands in for CPython `str`; exact text of the non-string
cases is irrelevant to every claim. -/
def pyStr : Value → String
  | .vnone => "None"
  | .vbool b => if b then "True" else "False"
  | .vnum q => reprQ q
  | .vstr s => s
  | .vlist _ => "[...]"
  | .vdict _ => "{...}"

section OddsArithmetic

/-- Is `cs` a run of one or more decimal digits? -/
def allDigits : List Char → Bool
  | [] => false
  | [c] => c.isDigit
  | c :: rest => c.isDigit && allDigits rest

/-- Does the stripped string match `^[+-]?\d+$`? -/
def isSignedIntLit (cs : List Char) : Bool :=
  match cs with
  | '+' :: rest => allDigits rest
  | '-' :: rest => allDigits rest
  | _ => allDigits cs

/-- Numeric value of a digit run. -/
def digitsVal : List Char → ℕ → ℕ
  | [], acc => acc
  | c :: rest, acc => digitsVal rest (acc * 10 + (c.toNat - '0'.toNat))

/-- Value of a `[+-]?\d+` literal. -/
def signedIntVal (cs : List Char) : ℤ :=
  match cs with
  | '+' :: rest => (digitsVal rest 0 : ℤ)
  | '-' :: rest => -(digitsVal rest 0 : ℤ)
  | _ => (digitsVal cs 0 : ℤ)

/-- Core conversion of a numeric American odds value to decimal odds
(`odds/100 + 1` when positive, `100/|odds| + 1` when negative, `None` at 0). -/
def a2dNum (q : ℚ) : Option ℚ :=
  if 0 < q then some (q / 100 + 1)
  else if q < 0 then some (100 / (-q) + 1)
  else none

/-- `american_to_decimal` (pod_utils.py:17).  Strings must match
`^[+-]?\d+$` after stripping; non-numeric non-string values fall into the
`float(str(x))` `ValueError` path and yield `None`. -/
def american_to_decimal (v : Value) : Option ℚ :=
  match v with
  | .vnone => none
  | .vstr s =>
    let cs := stripChars s.data
    if isSignedIntLit cs then a2dNum (signedIntVal cs) else none
  | .vnum q => a2dNum q
  | _ => none

/-- Python 3 `round` to the nearest integer, ties to even. -/
def bankersRound (q : ℚ) : ℤ :=
  let f := ⌊q⌋
  let r := q - (f : ℚ)
  if r < 1/2 then f
  else if 1/2 < r then f + 1
  else if f % 2 = 0 then f else f + 1

/-- `decimal_to_american` (pod_utils.py:33).  Returns the American odds
string: `f"+{int(round((d-1)*100))}"` when `d ≥ 2`, `f"{int(round(-100/(d-1)))}"`
when `1.0001 < d < 2`, absent otherwise. -/
def decimal_to_american (v : Value) : Option String :=
  if !isNumeric v then none
  else
    let q := numQ v
    if q ≤ 10001/10000 then none
    else if 2 ≤ q then some ("+" ++ toString (bankersRound ((q - 1) * 100)))
    else some (toString (bankersRound ((-100) / (q - 1))))

/-- Lift an optional rational back into a `Value` (Python returns the float
itself or `None`). -/
def optToValue : Option ℚ → Value
  | none => .vnone
  | some q => .vnum q

/-- The canonical rendering of an American-odds integer (`+N` for positive,
`-N` for negative). -/
def americanString (a : ℤ) : String :=
  if 0 < a then "+" ++ toString a else toString a

/-- `decimal_to_american(american_to_decimal(a))` for an integer input. -/
def americanRoundTrip (a : ℤ) : Option String :=
  decimal_to_american (optToValue (american_to_decimal (.vnum (a : ℚ))))

/-- `calculate_ev` (pod_utils.py:43): returns `0.0` when either argument is
falsy or non-positive, else `bet/true - 1`. -/
def calculate_ev (bet_decimal true_decimal : ℚ) : ℚ :=
  if bet_decimal = 0 ∨ true_decimal = 0 ∨ bet_decimal ≤ 0 ∨ true_decimal ≤ 0
  then 0
  else bet_decimal / true_decimal - 1

end OddsArithmetic

section NoVig

/-- Python `round(x, 3)`: to the nearest thousandth, ties to even. -/
def roundQ3 (q : ℚ) : ℚ :=
  (bankersRound (q * 1000) : ℚ) / 1000

/-- Validity test for one entry of the odds list handed to
`calculate_nvp_for_market`: `odd is not None and isinstance(odd, (int, float))
and odd > 1.0001`.  Booleans pass the isinstance test but have value 0 or 1,
so they never pass the comparison. -/
def isValidOdd (v : Value) : Bool :=
  isNumeric v && (10001/10000 : ℚ) < numQ v

/-- Indices of the valid entries (`valid_odds_indices`). -/
def validIndices (odds_list : List Value) : List ℕ :=
  (List.range odds_list.length).filter (fun i => isValidOdd (odds_list.getD i .vnone))

/-- Position of `j` in a list of indices, mirroring the enumerate-write-back
loop at the end of `calculate_nvp_for_market`. -/
def posIn (l : List ℕ) (j : ℕ) : Option ℕ :=
  match l with
  | [] => none
  | a :: rest => if a = j then some 0 else (posIn rest j).map (· + 1)

/-- Sum of implied probabilities `1/o` over the valid entries. -/
def impliedSum (odds_list : List Value) : ℚ :=
  ((validIndices odds_list).map (fun i => 1 / numQ (odds_list.getD i .vnone))).sum

/-- `calculate_nvp_for_market` (pod_utils.py:96).  The power-method
probability adjustment (`adjust_power_probabilities`) uses `math.pow` and
`math.log`, which have no exact rational semantics; it is therefore taken as
the parameter `adjust`.  Every claim settled here concerns only the branches
that never call it. -/
def calculate_nvp_for_market (adjust : List ℚ → List ℚ) (odds_list : List Value) :
    List (Option ℚ) :=
  let validIdx := validIndices odds_list
  if validIdx.length < 2 then List.replicate odds_list.length none
  else
    let current := validIdx.map (fun i => numQ (odds_list.getD i .vnone))
    if current.any (fun q => q = 0) then List.replicate odds_list.length none
    else
      let implied := current.map (fun q => 1 / q)
      if implied.sum = 0 then List.replicate odds_list.length none
      else
        let nvps : List (Option ℚ) :=
          if implied.sum ≤ 10001/10000 then current.map some
          else (adjust implied).map
            (fun p => if 1/1000000000 < p then some (roundQ3 (1 / p)) else none)
        (List.range odds_list.length).map (fun j =>
          match posIn validIdx j with
          | some i => nvps.getD i none
          | none => none)

end NoVig

section Normalizer

/-- Python `\w` (ASCII model): letters, digits and underscore. -/
def isWordChar (c : Char) : Bool := c.isAlphanum || c = '_'

/-- Characters kept by `re.sub(r'[^\w\s\.\-\+]', '', ...)`. -/
def keepChar (c : Char) : Bool :=
  isWordChar c || isPySpace c || c = '.' || c = '-' || c = '+'

/-- Lowercase a whole string (ASCII model of `str.lower`). -/
def lowerStr (s : String) : String := String.mk (s.data.map Char.toLower)

/-- Does `cs` start with `pfx`? -/
def startsWithL : List Char → List Char → Bool
  | _, [] => true
  | [], _ :: _ => false
  | c :: cs, p :: ps => c = p && startsWithL cs ps

/-- Does `cs` end with `sfx`? -/
def endsWithL (cs sfx : List Char) : Bool :=
  startsWithL cs.reverse sfx.reverse

/-- Drop a suffix of the given length from the end. -/
def dropSuffixL (cs sfx : List Char) : List Char :=
  cs.take (cs.length - sfx.length)

/-- Does `hay` contain `needle` as a contiguous substring (Python `in`)? -/
def containsSubL (hay needle : List Char) : Bool :=
  match hay with
  | [] => startsWithL [] needle
  | _ :: rest => startsWithL hay needle || containsSubL rest needle

/-- Replace all (leftmost, non-overlapping) occurrences of `needle` by
`repl` (Python `str.replace`); `fuel` bounds the recursion. -/
def replaceAllL (fuel : ℕ) (hay needle repl : List Char) : List Char :=
  match fuel with
  | 0 => hay
  | fuel + 1 =>
    match hay with
    | [] => []
    | c :: rest =>
      if startsWithL hay needle && !needle.isEmpty then
        repl ++ replaceAllL fuel (hay.drop needle.length) needle repl
      else
        c :: replaceAllL fuel rest needle repl

/-- Case-insensitive literal-prefix match; returns the remainder. -/
def expectCI : List Char → List Char → Option (List Char)
  | [], cs => some cs
  | _ :: _, [] => none
  | l :: ls, c :: cs => if c.toLower = l.toLower then expectCI ls cs else none

/-- `\s+`: at least one whitespace character, consumed maximally. -/
def wsPlus : List Char → Option (List Char)
  | [] => none
  | c :: rest => if isPySpace c then some (rest.dropWhile isPySpace) else none

/-- `[A-Za-z]+` under `re.IGNORECASE`: at least one letter, consumed
maximally. -/
def alphaPlus : List Char → Option (List Char)
  | [] => none
  | c :: rest => if c.isAlpha then some (rest.dropWhile Char.isAlpha) else none

/-- Tail `\s+must\s+start$` shared by the pitcher patterns,
case-insensitive; must consume the whole remainder. -/
def matchMustStart (cs : List Char) : Bool :=
  match wsPlus cs with
  | some cs =>
    match expectCI "must".data cs with
    | some cs =>
      match wsPlus cs with
      | some cs =>
        match expectCI "start".data cs with
        | some [] => true
        | _ => false
      | none => false
    | none => false
  | none => false

/-- Tail `\s*-\s*[LR]\s+must\s+start$` of the pitcher patterns
(pod_utils.py:233), case-insensitive. -/
def matchDashMustStart (cs : List Char) : Bool :=
  match cs.dropWhile isPySpace with
  | '-' :: rest =>
    match rest.dropWhile isPySpace with
    | c :: rest2 => (c.toLower = 'l' || c.toLower = 'r') && matchMustStart rest2
    | [] => false
  | _ => false

/-- Tail of pitcher pattern 1: `[A-Z][a-z]*\s+[A-Z][a-z]*` then the dash
tail. -/
def pitcherTail1 (cs : List Char) : Bool :=
  match alphaPlus cs with
  | some cs =>
    match wsPlus cs with
    | some cs =>
      match alphaPlus cs with
      | some cs => matchDashMustStart cs
      | none => false
    | none => false
  | none => false

/-- Tail of pitcher pattern 2: `[A-Z][a-z]*` then the dash tail. -/
def pitcherTail2 (cs : List Char) : Bool :=
  match alphaPlus cs with
  | some cs => matchDashMustStart cs
  | none => false

/-- Tail of pitcher pattern 3: a single `[A-Z]` then the dash tail. -/
def pitcherTail3 (cs : List Char) : Bool :=
  match cs with
  | c :: rest => c.isAlpha && matchDashMustStart rest
  | [] => false

/-- Lazy group `([A-Za-z\s]+?)`: the shortest non-empty prefix of
letters/whitespace whose remainder satisfies `tail`. -/
def lazyGroup (tail : List Char → Bool) : List Char → List Char → Option (List Char)
  | _, [] => none
  | acc, c :: rest =>
    if c.isAlpha || isPySpace c then
      let acc' := acc ++ [c]
      if tail rest then some acc' else lazyGroup tail acc' rest
    else none

/-- The pitcher-annotation stage (pod_utils.py:233-242): the first of the
three patterns that matches replaces the name by its stripped group 1. -/
def pitcherStage (cs : List Char) : List Char :=
  match lazyGroup pitcherTail1 [] cs with
  | some g => stripChars g
  | none =>
    match lazyGroup pitcherTail2 [] cs with
    | some g => stripChars g
    | none =>
      match lazyGroup pitcherTail3 [] cs with
      | some g => stripChars g
      | none => cs

/-- Alternation heads of the trophy/prop regex (pod_utils.py:245); the two
`.*`-suffixed branches match as soon as their literal head does, and the
regex only prefix-matches, so a branch fires exactly when its head occurs. -/
def trophyHeads : List (List Char) :=
  ["to lift the trophy".data, "lift the trophy".data, "to win".data,
   "wins".data, "(match)".data, "series price".data, "to win series".data,
   "(corners)".data]

/-- After the lazy group, `\s*` then one of the alternation branches. -/
def trophyFires (cs : List Char) : Bool :=
  trophyHeads.any (fun h => (expectCI h (cs.dropWhile isPySpace)).isSome)

/-- Lazy group `(.+?)` of the trophy regex: shortest non-empty prefix (dot
excludes newline) whose remainder fires a branch. -/
def trophyGo : List Char → List Char → Option (List Char)
  | _, [] => none
  | acc, c :: rest =>
    if c = '\n' then none
    else
      let acc' := acc ++ [c]
      if trophyFires rest then some acc' else trophyGo acc' rest

/-- Trophy/prop-phrase stripping stage (pod_utils.py:245-247). -/
def trophyStage (cs : List Char) : List Char :=
  match trophyGo [] cs with
  | some g => stripChars g
  | none => cs

/-- The parenthesised market tags removed (anchored at end) by
pod_utils.py:249. -/
def parenTagLits : List (List Char) :=
  ["(games)".data, "(sets)".data, "(match)".data, "(hits+runs+errors)".data,
   "(h+r+e)".data, "(hre)".data, "(corners)".data]

/-- `re.sub(r'\s*\((?:games|...|corners)\)$', '', norm).strip()`. -/
def stage5 (cs : List Char) : List Char :=
  stripChars <|
    match parenTagLits.find? (fun lit => endsWithL cs lit) with
    | some lit => dropSuffixL cs lit
    | none => cs

/-- Try to match `\s*\([^)]*\)` at the head of `cs`; on success return the
remainder after the closing parenthesis. -/
def parenMatchAt (cs : List Char) : Option (List Char) :=
  match cs.dropWhile isPySpace with
  | '(' :: rest =>
    match rest.dropWhile (fun c => c ≠ ')') with
    | ')' :: after => some after
    | _ => none
  | _ => none

/-- Leftmost match of `\s*\([^)]*\)`: split `cs` as
`kept ++ (matched) ++ rest`. -/
def findParenMatch : List Char → Option (List Char × List Char)
  | [] => none
  | c :: rest =>
    match parenMatchAt (c :: rest) with
    | some after => some ([], after)
    | none => (findParenMatch rest).map (fun pr => (c :: pr.1, pr.2))

/-- `re.sub(r'\s*\([^)]*\)', '', norm)`: remove every occurrence, scanning
left to right; `fuel` bounds the recursion. -/
def removeParenGroups : ℕ → List Char → List Char
  | 0, cs => cs
  | fuel + 1, cs =>
    match findParenMatch cs with
    | none => cs
    | some (pre, post) => pre ++ removeParenGroups fuel post

/-- League/country suffix list (pod_utils.py:251-257), in source order. -/
def leagueSfx : List String :=
  ["mlb", "nba", "nfl", "nhl", "ncaaf", "ncaab", "wnba",
   "poland", "bulgaria", "uruguay", "colombia", "peru", "argentina",
   "sweden", "romania", "finland", "england", "japan", "austria",
   "liga 1", "serie a", "bundesliga", "la liga", "ligue 1", "premier league",
   "epl", "mls", "tipico bundesliga"]

/-- One suffix-removal step: `re.sub(r'(\s+sfx|sfx)$', '', norm, count=1)`
followed by `.strip()`, kept only when the result is non-empty or the whole
name was exactly the suffix. -/
def applySfx (cs : List Char) (sfx : List Char) : List Char :=
  if endsWithL cs sfx then
    let temp := stripChars (dropSuffixL cs sfx)
    if temp ≠ [] ∨ cs.length = sfx.length then temp else cs
  else cs

/-- The full suffix loop, each suffix tried once in order. -/
def stage7 (cs : List Char) : List Char :=
  leagueSfx.foldl (fun acc s => applySfx acc s.data) cs

/-- Club-prefix list (pod_utils.py:264), in source order.  Each entry ends
with a space. -/
def clubPfx : List String :=
  ["if ", "fc ", "sc ", "bk ", "sk ", "ac ", "as ", "fk ", "cd ", "ca ",
   "afc ", "cfr ", "kc ", "scr "]

/-- One pass of the club-prefix stripping loop. -/
def pfxPass (cs : List Char) : List Char :=
  clubPfx.foldl
    (fun acc p => if startsWithL acc p.data then stripChars (acc.drop p.data.length) else acc)
    cs

/-- Hard-coded rewrites (pod_utils.py:269-276); the guards test the
lowercased pre-suffix name `nameL`, the rewrites act on the current
normalised string. -/
def stage9 (nameL norm : List Char) : List Char :=
  if containsSubL nameL "tottenham hotspur".data then "tottenham".data
  else if containsSubL nameL "paris saint germain".data ∨
          containsSubL nameL "paris sg".data then "psg".data
  else if containsSubL nameL "new york".data then
    replaceAllL norm.length norm "new york".data "ny".data
  else if containsSubL nameL "los angeles".data then
    replaceAllL norm.length norm "los angeles".data "la".data
  else if containsSubL nameL "st louis".data then
    replaceAllL norm.length norm "st louis".data "st. louis".data
  else if containsSubL nameL "inter milan".data ∨ nameL = "internazionale".data then
    "inter".data
  else if containsSubL nameL "rheindorf altach".data then "altach".data
  else if containsSubL nameL "scr altach".data then "altach".data
  else norm

/-- `re.sub(r'^[^\w]+|[^\w]+$', '', norm)`. -/
def dropNonWordEnds (cs : List Char) : List Char :=
  (((cs.dropWhile (fun c => !isWordChar c)).reverse.dropWhile
    (fun c => !isWordChar c)).reverse)

/-- `^\d+\s*` removal of pod_utils.py:229. -/
def stripLeadingNum (cs : List Char) : List Char :=
  match cs with
  | c :: _ =>
    if c.isDigit then (cs.dropWhile Char.isDigit).dropWhile isPySpace else cs
  | [] => []

/-- `" ".join(norm.split())`: collapse whitespace runs to single spaces and
trim both ends. -/
def collapseGo : Bool → Bool → List Char → List Char
  | _, _, [] => []
  | emitted, pending, c :: rest =>
    if isPySpace c then collapseGo emitted true rest
    else (if emitted && pending then [' ', c] else [c]) ++ collapseGo true false rest

/-- Whitespace collapsing entry point. -/
def collapseWs (cs : List Char) : List Char := collapseGo false false cs

/-- `normalize_team_name_for_matching` (pod_utils.py:225-280). -/
def normalize_team_name_for_matching (s : String) : String :=
  if s = "" then ""
  else
    let cs1 := stripChars (stripLeadingNum s.data)
    let cs2 := pitcherStage cs1
    let cs3 := trophyStage cs2
    let nameL := cs3.map Char.toLower
    let n5 := stage5 nameL
    let n6 := stripChars (removeParenGroups n5.length n5)
    let n7 := stage7 n6
    let n8 := pfxPass (pfxPass n7)
    let n9 := stage9 nameL n8
    let n10 := dropNonWordEnds n9
    let n11 := n10.filter keepChar
    let n12 := collapseWs n11
    if n12 = [] then String.mk (stripChars (s.data.map Char.toLower))
    else String.mk n12

/-- `TEAM_ALIASES` (pod_utils.py:191-215), in source order. -/
def TEAM_ALIASES : List (String × List String) :=
  [("north korea", ["korea dpr", "dpr korea", "democratic people's republic of korea"]),
   ("south korea", ["korea republic", "republic of korea"]),
   ("ivory coast", ["cote d'ivoire"]),
   ("czech republic", ["czechia"]),
   ("united states", ["usa", "us", "united states of america"]),
   ("iran", ["iran", "iran isl", "islamic republic of iran"]),
   ("russia", ["russian federation"]),
   ("tottenham", ["tottenham hotspur", "spurs"]),
   ("psg", ["paris saint germain", "paris sg"]),
   ("tiger cats", ["tiger-cats", "hamilton tiger cats", "hamilton tiger-cats"]),
   ("blue bombers", ["winnipeg blue bombers"]),
   ("roughriders", ["saskatchewan roughriders"]),
   ("stampeders", ["calgary stampeders"]),
   ("eskimos", ["edmonton eskimos", "edmonton elks"]),
   ("redblacks", ["ottawa redblacks"]),
   ("argonauts", ["toronto argonauts"]),
   ("alouettes", ["montreal alouettes"]),
   ("lions", ["bc lions", "british columbia lions"]),
   ("new york", ["ny"]),
   ("los angeles", ["la"]),
   ("st louis", ["st. louis"]),
   ("inter", ["inter milan", "internazionale"]),
   ("altach", ["rheindorf altach", "scr altach"])]

/-- `alias_normalize` (pod_utils.py:217-223): lowercase, strip, and map an
alias or canonical name to its canonical form (first table hit wins). -/
def alias_normalize (name : String) : String :=
  let n := pyStrip (lowerStr name)
  match TEAM_ALIASES.find? (fun p => n = p.1 ∨ p.2.contains n) with
  | some p => p.1
  | none => n

/-- Lowercase letters. -/
def lcLetters : List Char := "abcdefghijklmnopqrstuvwxyz".data

/-- A conservative character set on which every character-level transform of
the normalizer acts as the identity: lowercase letters, digits, space, dot
and plus. -/
def plainChars : List Char := "abcdefghijklmnopqrstuvwxyz0123456789 .+".data

/-- No two adjacent whitespace characters. -/
def noDoubleSpace : List Char → Bool
  | c :: d :: rest => !(isPySpace c && isPySpace d) && noDoubleSpace (d :: rest)
  | _ => true

/-- The substrings that trigger the hard-coded rewrites of
pod_utils.py:269-276. -/
def rewriteTriggers : List (List Char) :=
  ["tottenham hotspur".data, "paris saint germain".data, "paris sg".data,
   "new york".data, "los angeles".data, "st louis".data, "inter milan".data,
   "rheindorf altach".data, "scr altach".data]

/-- Syntactic conditions under which `normalize_team_name_for_matching` is
the identity: non-empty, drawn from `plainChars`, starting with a letter and
ending with a letter or digit, no doubled whitespace, and free of every
suffix, club prefix, trophy phrase, market tag and rewrite trigger the
normalizer reacts to. -/
def normPlain (cs : List Char) : Bool :=
  !cs.isEmpty &&
  cs.all (fun c => plainChars.contains c) &&
  (match cs.head? with
   | some c => lcLetters.contains c
   | none => false) &&
  (match cs.getLast? with
   | some c => (lcLetters ++ "0123456789".data).contains c
   | none => false) &&
  noDoubleSpace cs &&
  trophyHeads.all (fun h => !containsSubL cs h) &&
  parenTagLits.all (fun lit => !endsWithL cs lit) &&
  leagueSfx.all (fun s => !endsWithL cs s.data) &&
  clubPfx.all (fun p => !startsWithL cs p.data) &&
  rewriteTriggers.all (fun t => !containsSubL cs t) &&
  cs ≠ "internazionale".data

end Normalizer

section EvEngine

/-- Total dict lookup with default; used to state theorems about values that
are known to be dicts (`pyGetD` restricted to its non-raising case). -/
def dGet (v : Value) (k : String) (dflt : Value) : Value :=
  match v with
  | .vdict xs => (dlookup xs k).getD dflt
  | _ => dflt

/-- Python `for x in v`: lists iterate elements, strings iterate one-char
strings, dicts iterate keys; other values raise `TypeError`. -/
def pyIter (v : Value) : Except PyErr (List Value) :=
  match v with
  | .vlist xs => .ok xs
  | .vstr s => .ok (s.data.map (fun c => .vstr (String.mk [c])))
  | .vdict xs => .ok (xs.map (fun p => .vstr p.1))
  | _ => .error .typeError

/-- `math.isclose(a, b, abs_tol=0.01)` with the default `rel_tol=1e-9`:
`|a-b| <= max(1e-9 * max(|a|, |b|), 0.01)`. -/
def pyIsClose (a b : ℚ) : Bool :=
  |a - b| ≤ max (1/1000000000 * max |a| |b|) (1/100)

/-- Parse the exponent part of a float literal (empty, or `[eE][+-]?\d+`). -/
def parseExpPart (m : ℚ) (cs : List Char) : Option ℚ :=
  match cs with
  | [] => some m
  | c :: r =>
    if c = 'e' ∨ c = 'E' then
      let core : List Char → Option ℚ := fun ds =>
        if ds ≠ [] ∧ ds.all Char.isDigit then some ((digitsVal ds 0 : ℚ)) else none
      match r with
      | '+' :: r2 => (core r2).map (fun e => m * (10 : ℚ) ^ (e.num))
      | '-' :: r2 => (core r2).map (fun e => m * (10 : ℚ) ^ (-e.num))
      | _ => (core r).map (fun e => m * (10 : ℚ) ^ (e.num))
    else none

/-- Value of a fractional digit run. -/
def fracVal (cs : List Char) : ℚ :=
  cs.foldr (fun c acc => ((c.toNat - '0'.toNat : ℕ) + acc) / 10) 0

/-- Mantissa `\d+(\.\d*)?|\.\d+` of a Python float literal. -/
def parseFloatCore (cs : List Char) : Option ℚ :=
  let ds := cs.takeWhile Char.isDigit
  let rest := cs.drop ds.length
  match rest with
  | '.' :: r2 =>
    let fs := r2.takeWhile Char.isDigit
    if ds.isEmpty && fs.isEmpty then none
    else parseExpPart ((digitsVal ds 0 : ℚ) + fracVal fs) (r2.drop fs.length)
  | _ =>
    if ds.isEmpty then none
    else parseExpPart (digitsVal ds 0 : ℚ) rest

/-- Python `float(str)` on finite decimal literals (whitespace-stripped,
optional sign, optional fraction and exponent).  The `inf`/`nan`/underscore
forms have no rational meaning and are modelled as parse failures. -/
def parseFloat (s : String) : Option ℚ :=
  match stripChars s.data with
  | '+' :: r => parseFloatCore r
  | '-' :: r => (parseFloatCore r).map Neg.neg
  | cs => parseFloatCore cs

/-- Python `float(v)` for the values flowing through the EV engine. -/
def floatV (v : Value) : Except PyErr ℚ :=
  match v with
  | .vnum q => .ok q
  | .vbool b => .ok (if b then 1 else 0)
  | .vstr s =>
    match parseFloat s with
    | some q => .ok q
    | none => .error .valueError
  | _ => .error .typeError

/-- `math.isclose(v, q, abs_tol=0.01)` where the first argument is a raw
value (used by the 1H totals, which skip the `float()` conversion). -/
def isCloseV (v : Value) (q : ℚ) : Except PyErr Bool :=
  match v with
  | .vnum a => .ok (pyIsClose a q)
  | .vbool b => .ok (pyIsClose (if b then 1 else 0) q)
  | _ => .error .typeError

/-- Python unary minus on a value. -/
def pyNeg (v : Value) : Except PyErr Value :=
  match v with
  | .vnum q => .ok (.vnum (-q))
  | .vbool b => .ok (.vnum (if b then -1 else 0))
  | _ => .error .typeError

/-- `normalize_total_line` (pod_utils.py:289): numbers pass through, strings
have `½ → .5`, spaces removed and commas turned into dots, then an
Asian-style `a/b` pair averages to `(a+b)/2`, else a plain float parse. -/
def normalize_total_line (v : Value) : Option ℚ :=
  match v with
  | .vnone => none
  | .vnum q => some q
  | .vbool b => some (if b then 1 else 0)
  | .vstr s =>
    let cs := (s.data.flatMap (fun c => if c = '½' then ['.', '5'] else [c]))
    let cs := cs.filter (fun c => c ≠ ' ')
    let cs := cs.map (fun c => if c = ',' then '.' else c)
    match parseDecGroup cs with
    | some (v1, rest) =>
      match rest with
      | sep :: r2 =>
        if sep = ',' ∨ sep = '/' ∨ sep = ' ' then
          match parseDecGroup r2 with
          | some (v2, _) => some ((v1 + v2) / 2)
          | none =>
            match parseFloat (String.mk cs) with
            | some q => some q
            | none => none
        else
          match parseFloat (String.mk cs) with
          | some q => some q
          | none => none
      | [] =>
        match parseFloat (String.mk cs) with
        | some q => some q
        | none => none
    | none =>
      match parseFloat (String.mk cs) with
      | some q => some q
      | none => none
  | _ => none
where
  /-- Group `[0-9]+\.?[0-9]*` of the Asian-line regex. -/
  parseDecGroup (cs : List Char) : Option (ℚ × List Char) :=
    let ds := cs.takeWhile Char.isDigit
    if ds.isEmpty then none
    else
      let rest := cs.drop ds.length
      match rest with
      | '.' :: r2 =>
        let fs := r2.takeWhile Char.isDigit
        some ((digitsVal ds 0 : ℚ) + fracVal fs, r2.drop fs.length)
      | _ => some ((digitsVal ds 0 : ℚ), rest)

/-- `format_bet_description` (pod_utils.py:304).  The 1H markets fail every
specific branch and render as `"<market> - <selection>"`. -/
def format_bet_description (market selection line : String)
    (home_team away_team : Value) : String :=
  if market = "Moneyline" then
    if selection = "Home" ∧ truthy home_team then "ML - " ++ pyStr home_team
    else if selection = "Away" ∧ truthy away_team then "ML - " ++ pyStr away_team
    else "ML - " ++ selection
  else if market = "Spread" then
    if selection = "Home" ∧ truthy home_team then pyStr home_team ++ " " ++ line
    else if selection = "Away" ∧ truthy away_team then pyStr away_team ++ " " ++ line
    else selection ++ " " ++ line
  else if market = "Total" then
    if selection = "Over" then "Over " ++ line
    else if selection = "Under" then "Under " ++ line
    else selection ++ " " ++ line
  else market ++ " - " ++ selection

/-- `f"{ev*100:.2f}%"` — stands in for CPython float formatting; no claim
depends on the exact text. -/
def fmtPct (ev : ℚ) : String := reprQ (ev * 100) ++ "%"

/-- One EV-opportunity row (the dict appended to `potential_bets`).
`pinnacle_limit = none` models the one row shape (1H Total / Under) built
without that key. -/
structure BetRow where
  market : String
  selection : String
  line : String
  pinnacle_nvp : Value
  pinnacle_limit : Option Value
  betbck_odds : Value
  ev : String
  home_team : Value
  away_team : Value
  bet : String
deriving Repr

/-- `calculate_ev(bet_odds, true_odds)` as invoked by the engine, where the
reference price is a raw value: Python's `true_decimal <= 0` comparison
raises `TypeError` on non-numeric values. -/
def calcEvV (bet : ℚ) (t : Value) : Except PyErr ℚ :=
  if bet = 0 then .ok 0
  else if !truthy t then .ok 0
  else if bet ≤ 0 then .ok 0
  else
    match t with
    | .vnum q => .ok (calculate_ev bet q)
    | .vbool b => .ok (calculate_ev bet (if b then 1 else 0))
    | _ => .error .typeError

/-- Catch an exception into an empty row list (`except: continue` /
`except: return []`). -/
def catchRows (e : Except PyErr (List BetRow)) : List BetRow :=
  match e with
  | .ok l => l
  | .error _ => []

/-- One full-game moneyline block of analyze_markets_for_ev
(pod_utils.py:622-683), parameterised by the side's key names. -/
def fullML (betC ml meta pin_data : Value)
    (betKey amerKey nvpKey sel : String) : Except PyErr (List BetRow) := do
  let bval ← pyGetD betC betKey .vnone
  let aval ← pyGetD ml amerKey .vnone
  if truthy bval ∧ truthy aval then do
    let bv ← pySub betC betKey
    match american_to_decimal bv with
    | some bq =>
      let true_odds ← pyGetD ml nvpKey .vnone
      if bq ≠ 0 ∧ truthy true_odds then do
        let ev ← calcEvV bq true_odds
        let home_team ← pyGetD pin_data "home" (.vstr "")
        let away_team ← pyGetD pin_data "away" (.vstr "")
        let nvpShow ← pyGetD ml amerKey (.vstr "N/A")
        let l1 ← pyGetD ml "max_money_line" .vnone
        let l2 ← pyGetD meta "max_money_line" .vnone
        let l3 ← pyGetD meta "max_spread" .vnone
        let l4 ← pyGetD meta "max_total" .vnone
        pure [{ market := "Moneyline", selection := sel, line := "",
                pinnacle_nvp := nvpShow,
                pinnacle_limit := some (pyOr l1 (pyOr l2 (pyOr l3 l4))),
                betbck_odds := bv, ev := fmtPct ev,
                home_team := home_team, away_team := away_team,
                bet := format_bet_description "Moneyline" sel "" home_team away_team }]
      else pure []
    | none => pure []
  else pure []

/-- The guarded body of one full-game home-spread pairing
(pod_utils.py:696-716), run under `try`. -/
def spreadHomeTry (s psp meta pin_data : Value) (line bet_line : Value) :
    Except PyErr (List BetRow) := do
  if isNone bet_line || isNone line then pure []
  else do
    let bq ← floatV bet_line
    let lq ← floatV line
    if pyIsClose bq lq then do
      let nvpA ← pyGetD psp "nvp_american_home" .vnone
      if truthy nvpA then do
        let odds ← pyGetD s "odds" .vnone
        match american_to_decimal odds with
        | some bodds =>
          let true_odds ← pyGetD psp "nvp_home" .vnone
          if bodds ≠ 0 ∧ truthy true_odds then do
            let ev ← calcEvV bodds true_odds
            let home_team ← pyGetD pin_data "home" (.vstr "")
            let away_team ← pyGetD pin_data "away" (.vstr "")
            let nvpShow ← pyGetD psp "nvp_american_home" (.vstr "N/A")
            let m1 ← pyGetD psp "max" .vnone
            let m2 ← pyGetD meta "max_spread" .vnone
            pure [{ market := "Spread", selection := "Home", line := pyStr line,
                    pinnacle_nvp := nvpShow, pinnacle_limit := some (pyOr m1 m2),
                    betbck_odds := odds, ev := fmtPct ev,
                    home_team := home_team, away_team := away_team,
                    bet := format_bet_description "Spread" "Home" (pyStr line)
                      home_team away_team }]
          else pure []
        | none => pure []
      else pure []
    else pure []

/-- The guarded body of one full-game away-spread pairing
(pod_utils.py:723-743), run under `try`; note the raw `-line` negation used
for the reported line. -/
def spreadAwayTry (s psp meta pin_data : Value) (line bet_line : Value) :
    Except PyErr (List BetRow) := do
  if isNone bet_line || isNone line then pure []
  else do
    let bq ← floatV bet_line
    let lq ← floatV line
    if pyIsClose bq (-lq) then do
      let nvpA ← pyGetD psp "nvp_american_away" .vnone
      if truthy nvpA then do
        let odds ← pyGetD s "odds" .vnone
        match american_to_decimal odds with
        | some bodds =>
          let true_odds ← pyGetD psp "nvp_away" .vnone
          if bodds ≠ 0 ∧ truthy true_odds then do
            let ev ← calcEvV bodds true_odds
            let negLine ← pyNeg line
            let home_team ← pyGetD pin_data "home" (.vstr "")
            let away_team ← pyGetD pin_data "away" (.vstr "")
            let nvpShow ← pyGetD psp "nvp_american_away" (.vstr "N/A")
            let m1 ← pyGetD psp "max" .vnone
            let m2 ← pyGetD meta "max_spread" .vnone
            pure [{ market := "Spread", selection := "Away", line := pyStr negLine,
                    pinnacle_nvp := nvpShow, pinnacle_limit := some (pyOr m1 m2),
                    betbck_odds := odds, ev := fmtPct ev,
                    home_team := home_team, away_team := away_team,
                    bet := format_bet_description "Spread" "Away" (pyStr negLine)
                      home_team away_team }]
          else pure []
        | none => pure []
      else pure []
    else pure []

/-- Inner loop over the secondary book's one-sided spreads: fetch `line`
(outside the `try`), then run the guarded body with `except: continue`. -/
def spreadSideLoop (tryBody' : Value → Value → Except PyErr (List BetRow))
    (items : List Value) : Except PyErr (List BetRow) :=
  match items with
  | [] => .ok []
  | s :: rest => do
    let bet_line ← pyGetD s "line" .vnone
    let rows := catchRows (tryBody' s bet_line)
    let more ← spreadSideLoop tryBody' rest
    pure (rows ++ more)

/-- Loop over the reference spreads of one period
(pod_utils.py:690-745): for each `pin_spread`, the home-side then the
away-side secondary spreads. -/
def fullSpreadLoop (betC meta pin_data : Value) :
    List (String × Value) → Except PyErr (List BetRow)
  | [] => .ok []
  | (_, psp) :: rest => do
    let line ← pyGetD psp "hdp" .vnone
    let hs ← pyGetD betC "home_spreads" (.vlist [])
    let homeItems ← pyIter hs
    let homeRows ← spreadSideLoop
      (fun s bet_line => spreadHomeTry s psp meta pin_data line bet_line) homeItems
    let as' ← pyGetD betC "away_spreads" (.vlist [])
    let awayItems ← pyIter as'
    let awayRows ← spreadSideLoop
      (fun s bet_line => spreadAwayTry s psp meta pin_data line bet_line) awayItems
    let more ← fullSpreadLoop betC meta pin_data rest
    pure (homeRows ++ awayRows ++ more)

/-- Full-game spread section (pod_utils.py:685-745). -/
def fullSpreadRows (betC full_game meta pin_data : Value) :
    Except PyErr (List BetRow) := do
  let ps ← pyGetD full_game "spreads" .vnone
  let entries :=
    match (if isDict ps then ps else .vdict []) with
    | .vdict e => e
    | _ => []
  fullSpreadLoop betC meta pin_data entries

/-- State carried by the best-over/best-under totals scan. -/
structure TotState where
  best_over : Option (BetRow × ℚ)
  best_under : Option (BetRow × ℚ)
deriving Repr

/-- The Over half of one totals iteration (pod_utils.py:768-790). -/
def totalOverHalf (meta pin_data : Value) (over_odds : Value) (pq : ℚ)
    (ptot : Value) (st : TotState) : Except PyErr TotState := do
  let nvpA ← pyGetD ptot "nvp_american_over" .vnone
  if truthy over_odds ∧ truthy nvpA then do
    match american_to_decimal over_odds with
    | some bodds =>
      let true_odds ← pyGetD ptot "nvp_over" .vnone
      if bodds ≠ 0 ∧ truthy true_odds then do
        let ev ← calcEvV bodds true_odds
        let better :=
          match st.best_over with
          | none => true
          | some (_, bev) => ev > bev
        if better then do
          let home_team ← pyGetD pin_data "home" (.vstr "")
          let away_team ← pyGetD pin_data "away" (.vstr "")
          let nvpShow ← pyGetD ptot "nvp_american_over" (.vstr "N/A")
          let m1 ← pyGetD ptot "max" .vnone
          let m2 ← pyGetD meta "max_total" .vnone
          let row : BetRow :=
            { market := "Total", selection := "Over", line := reprQ pq,
              pinnacle_nvp := nvpShow,
              pinnacle_limit := some (pyOr m1 m2),
              betbck_odds := over_odds, ev := fmtPct ev,
              home_team := home_team, away_team := away_team,
              bet := format_bet_description "Total" "Over" (reprQ pq)
                home_team away_team }
          pure { st with best_over := some (row, ev) }
        else pure st
      else pure st
    | none => pure st
  else pure st

/-- The Under half of one totals iteration (pod_utils.py:791-813). -/
def totalUnderHalf (meta pin_data : Value) (under_odds : Value) (pq : ℚ)
    (ptot : Value) (st : TotState) : Except PyErr TotState := do
  let nvpA ← pyGetD ptot "nvp_american_under" .vnone
  if truthy under_odds ∧ truthy nvpA then do
    match american_to_decimal under_odds with
    | some bodds =>
      let true_odds ← pyGetD ptot "nvp_under" .vnone
      if bodds ≠ 0 ∧ truthy true_odds then do
        let ev ← calcEvV bodds true_odds
        let better :=
          match st.best_under with
          | none => true
          | some (_, bev) => ev > bev
        if better then do
          let home_team ← pyGetD pin_data "home" (.vstr "")
          let away_team ← pyGetD pin_data "away" (.vstr "")
          let nvpShow ← pyGetD ptot "nvp_american_under" (.vstr "N/A")
          let m1 ← pyGetD ptot "max" .vnone
          let m2 ← pyGetD meta "max_total" .vnone
          let row : BetRow :=
            { market := "Total", selection := "Under", line := reprQ pq,
              pinnacle_nvp := nvpShow,
              pinnacle_limit := some (pyOr m1 m2),
              betbck_odds := under_odds, ev := fmtPct ev,
              home_team := home_team, away_team := away_team,
              bet := format_bet_description "Total" "Under" (reprQ pq)
                home_team away_team }
          pure { st with best_under := some (row, ev) }
        else pure st
      else pure st
    | none => pure st
  else pure st

/-- One reference total against the aggregate secondary total
(pod_utils.py:765-813); not under any inner `try`. -/
def totalStep (meta pin_data : Value) (bck_line : Option ℚ)
    (over_odds under_odds : Value) (ptot : Value) (st : TotState) :
    Except PyErr TotState := do
  let pts ← pyGetD ptot "points" .vnone
  let pin_line := normalize_total_line pts
  match bck_line, pin_line with
  | some bq, some pq =>
    if pyIsClose bq pq then do
      let stA ← totalOverHalf meta pin_data over_odds pq ptot st
      totalUnderHalf meta pin_data under_odds pq ptot stA
    else pure st
  | _, _ => pure st

/-- Fold the totals scan over the reference totals. -/
def totalFold (meta pin_data : Value) (bck_line : Option ℚ)
    (over_odds under_odds : Value) :
    List (String × Value) → TotState → Except PyErr TotState
  | [], st => .ok st
  | (_, ptot) :: rest, st => do
    let st' ← totalStep meta pin_data bck_line over_odds under_odds ptot st
    totalFold meta pin_data bck_line over_odds under_odds rest st'

/-- Full-game totals section (pod_utils.py:747-820). -/
def fullTotalRows (betC full_game meta pin_data : Value) :
    Except PyErr (List BetRow) := do
  let pt ← pyGetD full_game "totals" .vnone
  let entries :=
    match (if isDict pt then pt else .vdict []) with
    | .vdict e => e
    | _ => []
  let gtl ← pyGetD betC "game_total_line" .vnone
  if !isNone gtl then do
    let over_odds ← pyGetD betC "game_total_over_odds" .vnone
    let under_odds ← pyGetD betC "game_total_under_odds" .vnone
    let st ← totalFold meta pin_data (normalize_total_line gtl) over_odds under_odds
      entries ⟨none, none⟩
    let overRows := match st.best_over with
      | some (r, _) => [r]
      | none => []
    let underRows := match st.best_under with
      | some (r, _) => [r]
      | none => []
    pure (overRows ++ underRows)
  else
    pure []

/-- All full-game rows of `analyze_markets_for_ev`, in emission order:
moneyline home/away/draw, spreads, totals (pod_utils.py:610-820).  This is
the portion of the function that reads only the period-0 markets
(`full_game`). -/
def fullGameRows (betC full_game pin_data : Value) :
    Except PyErr (List BetRow) := do
  let ml0 ← pyGetD full_game "money_line" (.vdict [])
  let metaRaw ← pyGetD full_game "meta" .vnone
  let meta := if isDict metaRaw then metaRaw else .vdict []
  let ml := if isNone ml0 then Value.vdict []
    else if ¬isDict ml0 then Value.vdict [] else ml0
  let r1 ← fullML betC ml meta pin_data
    "home_moneyline_american" "nvp_american_home" "nvp_home" "Home"
  let r2 ← fullML betC ml meta pin_data
    "away_moneyline_american" "nvp_american_away" "nvp_away" "Away"
  let r3 ← fullML betC ml meta pin_data
    "draw_moneyline_american" "nvp_american_draw" "nvp_draw" "Draw"
  let rs ← fullSpreadRows betC full_game meta pin_data
  let rt ← fullTotalRows betC full_game meta pin_data
  pure (r1 ++ r2 ++ r3 ++ rs ++ rt)

/-- One 1H moneyline block of `_analyze_1h_markets_for_ev`
(pod_utils.py:383-417), parameterised by the side's key names. -/
def oneHML (bet_1h pin_ml meta home_team away_team : Value)
    (betKey amerKey nvpKey sel : String) : Except PyErr (List BetRow) := do
  let bval ← pyGetD bet_1h betKey .vnone
  let aval ← pyGetD pin_ml amerKey .vnone
  if truthy bval ∧ truthy aval then do
    let bv ← pySub bet_1h betKey
    match american_to_decimal bv with
    | some bq =>
      let true_odds ← pyGetD pin_ml nvpKey .vnone
      if bq ≠ 0 ∧ truthy true_odds then do
        let ev ← calcEvV bq true_odds
        let nvpShow ← pyGetD pin_ml amerKey (.vstr "N/A")
        let l1 ← pyGetD pin_ml "max_money_line" .vnone
        let l2 ← pyGetD meta "max_money_line" .vnone
        pure [{ market := "1H Moneyline", selection := sel, line := "",
                pinnacle_nvp := nvpShow,
                pinnacle_limit := some (pyOr l1 l2),
                betbck_odds := bv, ev := fmtPct ev,
                home_team := home_team, away_team := away_team,
                bet := format_bet_description "1H Moneyline" sel "" home_team
                  away_team }]
      else pure []
    | none => pure []
  else pure []

/-- The guarded body of one 1H home-spread pairing (pod_utils.py:427-443),
run under `try`. -/
def oneHSpreadHomeTry (spread psp meta home_team away_team : Value)
    (line bet_line : Value) : Except PyErr (List BetRow) := do
  if isNone bet_line || isNone line then pure []
  else do
    let bq ← floatV bet_line
    let lq ← floatV line
    if pyIsClose bq lq then do
      let nvpA ← pyGetD psp "nvp_american_home" .vnone
      if truthy nvpA then do
        let odds ← pyGetD spread "odds" .vnone
        match american_to_decimal odds with
        | some bodds =>
          let true_odds ← pyGetD psp "nvp_home" .vnone
          if bodds ≠ 0 ∧ truthy true_odds then do
            let ev ← calcEvV bodds true_odds
            let nvpShow ← pyGetD psp "nvp_american_home" (.vstr "N/A")
            let m1 ← pyGetD psp "max" .vnone
            let m2 ← pyGetD meta "max_spread" .vnone
            pure [{ market := "1H Spread", selection := "Home", line := pyStr line,
                    pinnacle_nvp := nvpShow, pinnacle_limit := some (pyOr m1 m2),
                    betbck_odds := odds, ev := fmtPct ev,
                    home_team := home_team, away_team := away_team,
                    bet := format_bet_description "1H Spread" "Home" (pyStr line)
                      home_team away_team }]
          else pure []
        | none => pure []
      else pure []
    else pure []

/-- The guarded body of one 1H away-spread pairing (pod_utils.py:452-468),
run under `try`. -/
def oneHSpreadAwayTry (spread psp meta home_team away_team : Value)
    (line bet_line : Value) : Except PyErr (List BetRow) := do
  if isNone bet_line || isNone line then pure []
  else do
    let bq ← floatV bet_line
    let lq ← floatV line
    if pyIsClose bq (-lq) then do
      let nvpA ← pyGetD psp "nvp_american_away" .vnone
      if truthy nvpA then do
        let odds ← pyGetD spread "odds" .vnone
        match american_to_decimal odds with
        | some bodds =>
          let true_odds ← pyGetD psp "nvp_away" .vnone
          if bodds ≠ 0 ∧ truthy true_odds then do
            let ev ← calcEvV bodds true_odds
            let negLine ← pyNeg line
            let nvpShow ← pyGetD psp "nvp_american_away" (.vstr "N/A")
            let m1 ← pyGetD psp "max" .vnone
            let m2 ← pyGetD meta "max_spread" .vnone
            pure [{ market := "1H Spread", selection := "Away",
                    line := pyStr negLine,
                    pinnacle_nvp := nvpShow, pinnacle_limit := some (pyOr m1 m2),
                    betbck_odds := odds, ev := fmtPct ev,
                    home_team := home_team, away_team := away_team,
                    bet := format_bet_description "1H Spread" "Away" (pyStr negLine)
                      home_team away_team }]
          else pure []
        | none => pure []
      else pure []
    else pure []

/-- Python `.items()`: raises `AttributeError` on non-dicts. -/
def pyItems (v : Value) : Except PyErr (List (String × Value)) :=
  match v with
  | .vdict e => .ok e
  | _ => .error .attributeError

/-- Inner loop of the 1H spread sections: the bet side is the outer loop and
the reference spreads the inner one (the reverse of the full-game nesting);
`hdp` is fetched outside the `try`. -/
def oneHSpreadPinLoop
    (tryBody' : Value → Value → Value → Value → Except PyErr (List BetRow))
    (spread bet_line : Value) :
    List (String × Value) → Except PyErr (List BetRow)
  | [] => .ok []
  | (_, psp) :: rest => do
    let line ← pyGetD psp "hdp" .vnone
    let rows := catchRows (tryBody' spread psp line bet_line)
    let more ← oneHSpreadPinLoop tryBody' spread bet_line rest
    pure (rows ++ more)

/-- Outer loop of a 1H spread section over the secondary spreads; the
reference dict's `.items()` view is taken per iteration, so a non-dict
`spreads` object only raises when the secondary side is non-empty. -/
def oneHSpreadLoop
    (tryBody' : Value → Value → Value → Value → Except PyErr (List BetRow))
    (psObj : Value) :
    List Value → Except PyErr (List BetRow)
  | [] => .ok []
  | spread :: rest => do
    let bet_line ← pyGetD spread "line" .vnone
    let entries ← pyItems psObj
    let rows ← oneHSpreadPinLoop tryBody' spread bet_line entries
    let more ← oneHSpreadLoop tryBody' psObj rest
    pure (rows ++ more)

/-- The guarded body of one 1H total pairing (pod_utils.py:480-496 for
Over, 505-520 for Under), run under `try`; `math.isclose` receives the raw
secondary line (no `float()` conversion), and the Under row is built
without a `pinnacle_limit` key. -/
def oneHTotalTry (isOver : Bool) (total ptot meta home_team away_team : Value)
    (pin_line : Option ℚ) (bet_line : Value) : Except PyErr (List BetRow) := do
  let amerKey := if isOver then "nvp_american_over" else "nvp_american_under"
  let nvpKey := if isOver then "nvp_over" else "nvp_under"
  let sel := if isOver then "Over" else "Under"
  match pin_line with
  | none => pure []
  | some pq =>
    if isNone bet_line then pure []
    else do
      let close ← isCloseV bet_line pq
      if close then do
        let nvpA ← pyGetD ptot amerKey .vnone
        if truthy nvpA then do
          let odds ← pyGetD total "odds" .vnone
          match american_to_decimal odds with
          | some bodds =>
            let true_odds ← pyGetD ptot nvpKey .vnone
            if bodds ≠ 0 ∧ truthy true_odds then do
              let ev ← calcEvV bodds true_odds
              let nvpShow ← pyGetD ptot amerKey (.vstr "N/A")
              let lim ←
                if isOver then do
                  let m1 ← pyGetD ptot "max" .vnone
                  let m2 ← pyGetD meta "max_total" .vnone
                  pure (some (pyOr m1 m2))
                else pure none
              pure [{ market := "1H Total", selection := sel, line := reprQ pq,
                      pinnacle_nvp := nvpShow, pinnacle_limit := lim,
                      betbck_odds := odds, ev := fmtPct ev,
                      home_team := home_team, away_team := away_team,
                      bet := format_bet_description "1H Total" sel (reprQ pq)
                        home_team away_team }]
            else pure []
          | none => pure []
        else pure []
      else pure []

/-- Inner loop of a 1H totals section over the reference totals; `points`
is normalised outside the `try`. -/
def oneHTotalPinLoop (isOver : Bool) (meta home_team away_team : Value)
    (total bet_line : Value) :
    List (String × Value) → Except PyErr (List BetRow)
  | [] => .ok []
  | (_, ptot) :: rest => do
    let pts ← pyGetD ptot "points" .vnone
    let pin_line := normalize_total_line pts
    let rows := catchRows
      (oneHTotalTry isOver total ptot meta home_team away_team pin_line bet_line)
    let more ← oneHTotalPinLoop isOver meta home_team away_team total bet_line rest
    pure (rows ++ more)

/-- Outer loop of a 1H totals section over the secondary totals; as with
the spreads, `.items()` is taken per iteration. -/
def oneHTotalLoop (isOver : Bool) (meta home_team away_team : Value)
    (ptObj : Value) :
    List Value → Except PyErr (List BetRow)
  | [] => .ok []
  | total :: rest => do
    let bet_line ← pyGetD total "line" .vnone
    let entries ← pyItems ptObj
    let rows ← oneHTotalPinLoop isOver meta home_team away_team total bet_line entries
    let more ← oneHTotalLoop isOver meta home_team away_team ptObj rest
    pure (rows ++ more)

/-- Body of `_analyze_1h_markets_for_ev` (pod_utils.py:367-529) before its
surrounding `try/except`.  It receives only the secondary game's `1H_data`
and the reference event's period-1 markets (plus `pin_data` for the team
names). -/
def analyze1HExc (bet_1h pinnacle_1h pin_data : Value) :
    Except PyErr (List BetRow) := do
  let home_team ← pyGetD pin_data "home" (.vstr "")
  let away_team ← pyGetD pin_data "away" (.vstr "")
  let pin_ml ← pyGetD pinnacle_1h "money_line" (.vdict [])
  let meta ← pyGetD pinnacle_1h "meta" (.vdict [])
  let r1 ← oneHML bet_1h pin_ml meta home_team away_team
    "home_moneyline_american" "nvp_american_home" "nvp_home" "Home"
  let r2 ← oneHML bet_1h pin_ml meta home_team away_team
    "away_moneyline_american" "nvp_american_away" "nvp_away" "Away"
  let ps ← pyGetD pinnacle_1h "spreads" (.vdict [])
  let hs ← pyGetD bet_1h "home_spreads" (.vlist [])
  let homeItems ← pyIter hs
  let rs1 ← oneHSpreadLoop
    (fun spread psp line bet_line =>
      oneHSpreadHomeTry spread psp meta home_team away_team line bet_line)
    ps homeItems
  let as' ← pyGetD bet_1h "away_spreads" (.vlist [])
  let awayItems ← pyIter as'
  let rs2 ← oneHSpreadLoop
    (fun spread psp line bet_line =>
      oneHSpreadAwayTry spread psp meta home_team away_team line bet_line)
    ps awayItems
  let pt ← pyGetD pinnacle_1h "totals" (.vdict [])
  let hts ← pyGetD bet_1h "home_totals" (.vlist [])
  let homeTotals ← pyIter hts
  let rt1 ← oneHTotalLoop true meta home_team away_team pt homeTotals
  let ats ← pyGetD bet_1h "away_totals" (.vlist [])
  let awayTotals ← pyIter ats
  let rt2 ← oneHTotalLoop false meta home_team away_team pt awayTotals
  pure (r1 ++ r2 ++ rs1 ++ rs2 ++ rt1 ++ rt2)

/-- `_analyze_1h_markets_for_ev`: the whole body runs under
`try: ... except: return []`. -/
def analyze1H (bet_1h pinnacle_1h pin_data : Value) : List BetRow :=
  catchRows (analyze1HExc bet_1h pinnacle_1h pin_data)

/-- Body of `_validate_period_separation` (pod_utils.py:331-364) before its
surrounding `try/except`. -/
def validateExc (bet_data pinnacle_data : Value) : Except PyErr Bool := do
  let h1b ← pyGetD bet_data "1H_data" .vnone
  let has_1h_betbck := truthy h1b
  let pin_data ← pyGetD pinnacle_data "data" (.vdict [])
  let periods ← pyGetD pin_data "periods" (.vdict [])
  let p1a ← pyGetD periods "num_1" .vnone
  let p1b ← pyGetD periods "1" .vnone
  let has_1h_pinnacle := truthy (pyOr p1a p1b)
  let p0a ← pyGetD periods "num_0" .vnone
  let p0b ← pyGetD periods "0" .vnone
  let has_full_game := truthy (pyOr p0a p0b)
  if has_1h_betbck ∧ ¬has_full_game then pure false
  else if has_1h_pinnacle ∧ ¬has_full_game then pure false
  else pure true

/-- `_validate_period_separation`: any exception is caught and reported as
a failed validation. -/
def validate_period_separation (bet_data pinnacle_data : Value) : Bool :=
  match validateExc bet_data pinnacle_data with
  | .ok b => b
  | .error _ => false

/-- Defensive copy of pod_utils.py:542-543: `deepcopy(x) if x else {}`
(values are immutable here, so the deep copy itself is the identity). -/
def copyOf (v : Value) : Value := if truthy v then v else .vdict []

/-- Body of the `try` block of `analyze_markets_for_ev`
(pod_utils.py:571-835). -/
def tryBody (betC pinC : Value) : Except PyErr (List BetRow) := do
  let pin_data ← pySub pinC "data"
  if isNone pin_data then pure []
  else if ¬isDict pin_data then pure []
  else do
    let periods ← pyGetD pin_data "periods" (.vdict [])
    if isNone periods then pure []
    else if ¬isDict periods then pure []
    else do
      let p0a ← pyGetD periods "num_0" .vnone
      let p0b ← pyGetD periods "0" .vnone
      let full_game := pyOr p0a p0b
      if isNone full_game then pure []
      else if ¬isDict full_game then pure []
      else if ¬truthy full_game then pure []
      else do
        let fg ← fullGameRows betC full_game pin_data
        let h1 ← pyGetD betC "1H_data" .vnone
        let oneH ←
          if truthy h1 then do
            let p1a ← pyGetD periods "num_1" .vnone
            let p1b ← pyGetD periods "1" .vnone
            let first_half := pyOr p1a p1b
            if truthy first_half ∧ isDict first_half then do
              let b1 ← pySub betC "1H_data"
              pure (analyze1H b1 first_half pin_data)
            else pure []
          else pure []
        pure (fg ++ oneH)

/-- `analyze_markets_for_ev` (pod_utils.py:532-839).  The period-separation
guard and the null checks of lines 541-569 run before the `try`; the `try`
block's failures all collapse to an empty row list. -/
def analyze_markets_for_ev (bet_data pinnacle_data : Value) :
    Except PyErr (List BetRow) := do
  let betC := copyOf bet_data
  let pinC := copyOf pinnacle_data
  if ¬validate_period_separation betC pinC then pure []
  else if ¬truthy pinC then pure []
  else if ¬isDict pinC then pure []
  else do
    let d ← pyGetD pinC "data" .vnone
    if ¬truthy d then pure []
    else do
      let d2 ← pySub pinC "data"
      if isNone d2 then pure []
      else pure (catchRows (tryBody betC pinC))

/-- A small secondary-book game used to exercise the engine on a concrete
input: a single home moneyline at +100. -/
def c1SampleBet : Value :=
  .vdict [("home_moneyline_american", .vstr "+100")]

/-- A matching reference event with one period-0 moneyline market. -/
def c1SamplePin : Value :=
  .vdict [("data", .vdict
    [("home", .vstr "A"), ("away", .vstr "B"),
     ("periods", .vdict
       [("num_0", .vdict
         [("money_line", .vdict
           [("nvp_american_home", .vstr "+105"), ("nvp_home", .vnum 2)])])])])]

/-- The single row the engine emits for the sample inputs. -/
def c1SampleRow : BetRow :=
  { market := "Moneyline", selection := "Home", line := "",
    pinnacle_nvp := .vstr "+105", pinnacle_limit := some .vnone,
    betbck_odds := .vstr "+100", ev := "0%",
    home_team := .vstr "A", away_team := .vstr "B", bet := "ML - A" }

/-- A secondary game whose only home spread has the huge line 10^8. -/
def c5Bet : Value :=
  .vdict [("home_spreads", .vlist
    [.vdict [("line", .vnum 100000000), ("odds", .vstr "+100")]])]

/-- A reference event whose only period-0 spread has hdp 10^8 + 1/20:
0.05 away from the secondary line, beyond 0.01 but inside the
`math.isclose` relative tolerance at that magnitude. -/
def c5Pin : Value :=
  .vdict [("data", .vdict
    [("home", .vstr "A"), ("away", .vstr "B"),
     ("periods", .vdict
       [("num_0", .vdict
         [("spreads", .vdict
           [("s0", .vdict
             [("hdp", .vnum (100000000 + 1/20)),
              ("nvp_american_home", .vstr "+105"),
              ("nvp_home", .vnum 2)])])])])])]

/-- The Spread/Home row the engine emits for `c5Bet`/`c5Pin`. -/
def c5Row : BetRow :=
  { market := "Spread", selection := "Home", line := "2000000001/20",
    pinnacle_nvp := .vstr "+105", pinnacle_limit := some .vnone,
    betbck_odds := .vstr "+100", ev := "0%",
    home_team := .vstr "A", away_team := .vstr "B",
    bet := "A 2000000001/20" }

/-- A small secondary home spread used to exercise `spreadHomeTry`. -/
def c5S : Value := .vdict [("line", .vnum (3/2)), ("odds", .vstr "+100")]

/-- A matching reference spread with hdp 3/2. -/
def c5Psp : Value :=
  .vdict [("hdp", .vnum (3/2)), ("nvp_american_home", .vstr "+105"),
          ("nvp_home", .vnum 2)]

/-- Team names for the `spreadHomeTry` sample. -/
def c5PinD : Value := .vdict [("home", .vstr "A"), ("away", .vstr "B")]

/-- The row `spreadHomeTry` emits for the sample spread pairing. -/
def c5HomeRow : BetRow :=
  { market := "Spread", selection := "Home", line := "3/2",
    pinnacle_nvp := .vstr "+105", pinnacle_limit := some .vnone,
    betbck_odds := .vstr "+100", ev := "0%",
    home_team := .vstr "A", away_team := .vstr "B", bet := "A 3/2" }

end EvEngine

section Matcher

/-! The game matcher of `match_games.py`.  Reference events and secondary
games are `Value` dicts; the two genuinely external dependencies —
rapidfuzz's `token_set_ratio` and `datetime.fromisoformat` — enter as
parameters of a `MatchCtx`.  Python `set`s of ids are modelled as lists
with Python's equality on hashable values; adding or probing an unhashable
value raises `TypeError` exactly as in CPython. -/

/-- Hash key of a hashable value: `None`, numbers and booleans (Python has
`True == 1`), and strings; `none` for unhashable lists and dicts. -/
def hkey : Value → Option (Option (ℚ ⊕ String))
  | .vnone => some none
  | .vbool b => some (some (.inl (if b then 1 else 0)))
  | .vnum q => some (some (.inl q))
  | .vstr s => some (some (.inr s))
  | _ => none

/-- Python `==` as used through set membership (both operands hashable):
equal hash keys, and the left operand actually hashable. -/
def atomEq (a b : Value) : Bool :=
  (hkey a).isSome && hkey a = hkey b

/-- Membership in a set of values, the probe known hashable. -/
def setMemB (x : Value) (s : List Value) : Bool := s.any (fun y => atomEq x y)

/-- `x in s` for a Python set: `TypeError` on an unhashable probe. -/
def setMem (x : Value) (s : List Value) : Except PyErr Bool :=
  if (hkey x).isSome then .ok (setMemB x s) else .error .typeError

/-- `s.add(x)`: `TypeError` on an unhashable element. -/
def setAdd (x : Value) (s : List Value) : Except PyErr (List Value) :=
  if (hkey x).isSome then .ok (if setMemB x s then s else x :: s)
  else .error .typeError

/-- `v.lower()`: `AttributeError` off strings. -/
def pyLowerS : Value → Except PyErr String
  | .vstr s => .ok (lowerStr s)
  | _ => .error .attributeError

/-- `PROP_INDICATORS` (match_games.py:45-57). -/
def PROP_INDICATORS : List String :=
  ["to lift the trophy", "lift the trophy", "mvp", "futures", "outright",
   "coach of the year", "player of the year", "series correct score",
   "when will series finish", "most points in series", "most assists in series",
   "most rebounds in series", "most threes made in series", "margin of victory",
   "exact outcome", "winner", "to win the tournament", "to win group",
   "series price", "(corners)", "bookings", "cards", "fouls",
   "hits+runs+errors", "corners", "bookings", "games", "sets",
   "1st half", "2nd half", "1st quarter", "2nd quarter", "3rd quarter",
   "4th quarter", "overtime", "extra time", "penalties", "total", "over",
   "under", "spread", "ml", "pk", "draw", "to win", "to advance", "handicap",
   "double chance", "clean sheet", "both teams to score", "anytime scorer",
   "first scorer", "last scorer", "win either half", "win both halves",
   "scorecast", "assist", "shots on target", "saves", "goalscorer",
   "player props", "team props", "props"]

/-- `is_prop_market_by_name` (match_games.py:65-73): each name is lowered
in turn (raising on non-strings) and scanned for prop indicators. -/
def is_prop_market_by_name (h a : Value) : Except PyErr Bool := do
  if ¬truthy h ∨ ¬truthy a then pure false
  else do
    let hl ← pyLowerS h
    if PROP_INDICATORS.any (fun i => containsSubL hl.data i.data) then pure true
    else do
      let al ← pyLowerS a
      if PROP_INDICATORS.any (fun i => containsSubL al.data i.data) then pure true
      else if containsSubL al.data "field".data ∧ containsSubL al.data "the".data
        then pure true
      else if hl = "yes" ∧ al = "no" then pure true
      else pure false

/-- The team-name lists of `determine_sport_from_teams`
(match_games.py:211-236), duplicates included. -/
def mlb_teams : List String :=
  ["blue jays", "dodgers", "mariners", "braves", "cubs", "angels", "padres",
   "rangers", "phillies", "yankees", "white sox", "giants", "marlins",
   "athletics", "guardians", "orioles", "red sox", "astros", "rockies",
   "cardinals", "twins", "brewers", "tigers", "royals", "rays", "nationals",
   "mets", "pirates", "diamondbacks", "twins", "royals", "tigers", "astros"]

def soccer_teams : List String :=
  ["united", "city", "arsenal", "chelsea", "liverpool", "tottenham",
   "brighton", "wolves", "wanderers", "forest", "leeds", "villa", "palace",
   "fulham", "bournemouth", "lyon", "rennais", "laval", "boulogne", "galaxy",
   "sounders", "real", "barcelona", "madrid", "atletico", "sevilla",
   "valencia", "betis", "sociedad", "athletic", "bayern", "dortmund",
   "leipzig", "leverkusen", "frankfurt", "stuttgart", "juventus", "milan",
   "inter", "napoli", "roma", "lazio", "fiorentina", "psg", "monaco", "lyon",
   "marseille", "lille", "rennes", "nice"]

def basketball_teams : List String :=
  ["lakers", "warriors", "celtics", "heat", "bulls", "knicks", "nets",
   "suns", "mavs", "bucks", "sixers", "raptors", "pistons", "pacers",
   "cavaliers", "magic", "hawks", "hornets", "wizards", "nuggets",
   "trail blazers", "jazz", "thunder", "spurs", "rockets", "pelicans",
   "grizzlies", "timberwolves", "kings", "clippers"]

def football_teams : List String :=
  ["patriots", "bills", "dolphins", "jets", "ravens", "bengals", "browns",
   "steelers", "texans", "colts", "jaguars", "titans", "broncos", "chiefs",
   "raiders", "chargers", "cowboys", "giants", "eagles", "commanders",
   "bears", "lions", "packers", "vikings", "falcons", "panthers", "saints",
   "buccaneers", "cardinals", "rams", "seahawks", "49ers"]

/-- `determine_sport_from_teams` (match_games.py:206-251). -/
def determine_sport_from_teams (home away : String) : String :=
  let comb := lowerStr (home ++ " " ++ away)
  if ["amanda", "tatiana", "keith", "devin", "fernando", "anthony",
      "stephen"].any (fun w => containsSubL comb.data w.data) then "ufc_boxing"
  else if mlb_teams.any (fun t => containsSubL comb.data t.data) then "mlb"
  else if soccer_teams.any (fun t => containsSubL comb.data t.data) then
    "soccer"
  else if basketball_teams.any (fun t => containsSubL comb.data t.data) then
    "basketball"
  else if football_teams.any (fun t => containsSubL comb.data t.data) then
    "football"
  else "other"

/-- The minor-league indicators of the grouping pre-pass
(match_games.py:270-276). -/
def minor_indicators : List String :=
  ["durham bulls", "salt lake bees", "st. paul saints", "columbus clippers",
   "tacoma rainiers", "norfolk tides", "jumbo shrimp", "mud hens",
   "reno aces", "oklahoma city comets", "red wings", "syracuse mets",
   "indianapolis indians", "storm chasers", "railriders", "bees", "clippers",
   "mud hens", "aces", "comets", "wings", "mets", "indians", "storm chasers",
   "railriders"]

/-- Append an event to its sport bucket, preserving insertion order
(Python dict-of-lists update). -/
def addGroup (g : List (String × List Value)) (k : String) (ev : Value) :
    List (String × List Value) :=
  match g with
  | [] => [(k, [ev])]
  | (kk, evs) :: rest =>
    if kk = k then (kk, evs ++ [ev]) :: rest else (kk, evs) :: addGroup rest k ev

/-- The sport-grouping pre-pass of `match_pinnacle_to_betbck`
(match_games.py:262-289): lowercase the team names, drop minor-league
events, bucket the rest by `determine_sport_from_teams`. -/
def groupEvents (g : List (String × List Value)) :
    List Value → Except PyErr (List (String × List Value))
  | [] => .ok g
  | ev :: rest => do
    let h0 ← pyGetD ev "home_team" (.vstr "")
    let ht ← pyLowerS h0
    let a0 ← pyGetD ev "away_team" (.vstr "")
    let aw ← pyLowerS a0
    if minor_indicators.any
        (fun i => containsSubL ht.data i.data || containsSubL aw.data i.data)
      then groupEvents g rest
    else groupEvents (addGroup g (determine_sport_from_teams ht aw) ev) rest

/-- `events_by_sport.get(sport, [])`. -/
def glookup (g : List (String × List Value)) (k : String) : List Value :=
  match g with
  | [] => []
  | (kk, evs) :: rest => if kk = k then evs else glookup rest k

/-- English division team lists of `is_league_compatible`
(match_games.py:166-169). -/
def english_premier_teams : List String :=
  ["manchester united", "manchester city", "arsenal", "chelsea", "liverpool",
   "tottenham", "newcastle", "brighton", "west ham", "crystal palace",
   "fulham", "brentford", "everton", "nottingham forest", "sheffield united",
   "burnley", "luton town", "bournemouth", "wolves", "wolverhampton"]

def english_championship_teams : List String :=
  ["leeds united", "leicester city", "southampton", "norwich city",
   "west brom", "hull city", "middlesbrough", "coventry city", "sunderland",
   "birmingham city", "blackburn rovers", "bristol city", "cardiff city",
   "huddersfield town", "ipswich town", "millwall", "plymouth argyle",
   "preston north end", "queens park rangers", "rotherham united",
   "sheffield wednesday", "stoke city", "swansea city", "watford"]

def english_league1_teams : List String :=
  ["barnsley", "blackpool", "bolton wanderers", "bristol rovers",
   "burton albion", "cambridge united", "carlisle united",
   "charlton athletic", "cheltenham town", "derby county", "exeter city",
   "fleetwood town", "grimsby town", "leyton orient", "lincoln city",
   "northampton town", "oxford united", "peterborough united", "port vale",
   "reading", "shrewsbury town", "stevenage", "wigan athletic",
   "wycombe wanderers"]

def english_league2_teams : List String :=
  ["accrington stanley", "afc wimbledon", "barrow", "bradford city",
   "colchester united", "crewe alexandra", "crawley town",
   "doncaster rovers", "forest green rovers", "gillingham",
   "harrogate town", "mansfield town", "mk dons", "morecambe",
   "newport county", "notts county", "salford city", "stockport county",
   "sutton united", "swindon town", "tranmere rovers", "walsall"]

def international_indicators : List String :=
  ["national team", "country", "international", "fifa", "uefa nations"]

/-- Does any entry of `ts` occur in `h` or in `a`? -/
def anyTeamIn (ts : List String) (h a : String) : Bool :=
  ts.any (fun t => containsSubL h.data t.data || containsSubL a.data t.data)

/-- `is_league_compatible` (match_games.py:155-204).  The cup-indicator
block only logs and never changes the result, so it is not computed. -/
def is_league_compatible (bg ev : Value) : Except PyErr Bool := do
  let bh0 ← pyGetD bg "betbck_site_home_team" (.vstr "")
  let bh ← pyLowerS bh0
  let ba0 ← pyGetD bg "betbck_site_away_team" (.vstr "")
  let ba ← pyLowerS ba0
  let ph0 ← pyGetD ev "home_team" (.vstr "")
  let ph ← pyLowerS ph0
  let pa0 ← pyGetD ev "away_team" (.vstr "")
  let pa ← pyLowerS pa0
  let divs := [english_premier_teams, english_championship_teams,
               english_league1_teams, english_league2_teams]
  let bdivs := (List.range 4).filter (fun i => anyTeamIn (divs.getD i []) bh ba)
  let pdivs := (List.range 4).filter (fun i => anyTeamIn (divs.getD i []) ph pa)
  if (¬bdivs.isEmpty ∧ ¬pdivs.isEmpty) ∧
      ¬pdivs.any (fun d => bdivs.contains d) then pure false
  else
    if anyTeamIn international_indicators bh ba
        ≠ anyTeamIn international_indicators ph pa then pure false
    else pure true

/-- The loose sport-category lists of the candidate loop
(match_games.py:385-390). -/
def basketball_sports : List String :=
  ["basketball", "nba", "wnba", "ncaab", "ncaa basketball", "euroleague",
   "fib", "basketball"]

def football_sports : List String :=
  ["football", "nfl", "ncaaf", "ncaa football", "college football",
   "american football"]

def baseball_sports : List String :=
  ["baseball", "mlb", "minor league", "college baseball", "ncaa baseball"]

def soccer_sports : List String :=
  ["soccer", "football", "mls", "premier league", "la liga", "bundesliga",
   "serie a", "ligue 1", "champions league", "europa league"]

def hockey_sports : List String :=
  ["hockey", "nhl", "ncaa hockey", "college hockey"]

/-- A game's loose sport category from its lowered `league` and `sport`
strings (match_games.py:396-424); `none` = undetermined. -/
def sportCategory (lg sp : String) : Option String :=
  let hit := fun (l : List String) =>
    l.any (fun s => containsSubL lg.data s.data || containsSubL sp.data s.data)
  if hit basketball_sports then some "basketball"
  else if hit football_sports then some "football"
  else if hit baseball_sports then some "baseball"
  else if hit soccer_sports then some "soccer"
  else if hit hockey_sports then some "hockey"
  else none

/-- The candidate time filter (match_games.py:359-377): both stamps truthy
and more than 24 hours apart; any failure inside the `try` (non-string
stamp, unparsable ISO text) falls through via `except: pass`. -/
def timeSkip (parseIso : String → Option ℚ) (bt pt : Value) : Bool :=
  if truthy bt ∧ truthy pt then
    match bt, pt with
    | .vstr sb, .vstr sp =>
      match parseIso (String.mk
              (replaceAllL sb.data.length sb.data "Z".data "+00:00".data)),
            parseIso (String.mk
              (replaceAllL sp.data.length sp.data "Z".data "+00:00".data)) with
      | some tb, some tp => |tb - tp| > 86400
      | _, _ => false
    | _, _ => false
  else false

/-- `normalize_team_name_for_matching` on a raw value: the falsy guard
returns `""`, a truthy non-string raises. -/
def normalizeV : Value → Except PyErr String
  | .vstr s => .ok (normalize_team_name_for_matching s)
  | v => if truthy v then .error .attributeError else .ok ""

/-- One returned match record (match_games.py:495-511). -/
structure MatchRec where
  pinnacle_event_id : Value
  pinnacle_home_team : Value
  pinnacle_away_team : Value
  betbck_game : Value
  match_confidence : ℚ
  betbck_home_team : Value
  betbck_away_team : Value
  normalized_betbck_home : String
  normalized_betbck_away : String
  normalized_pinnacle_home : String
  normalized_pinnacle_away : String
  match_score : ℚ
  orientation : String
  betbck_home_odds : Value
  betbck_away_odds : Value
  sport : String
deriving Repr

/-- External dependencies of the matcher: rapidfuzz's `token_set_ratio`
(a 0-100 similarity score) and `datetime.fromisoformat` read as POSIX
seconds (`none` = `ValueError`). -/
structure MatchCtx where
  tsr : String → String → ℚ
  parseIso : String → Option ℚ

/-- The candidate loop of `match_pinnacle_to_betbck`
(match_games.py:348-463): scan the relevant events — skipping processed
ids, prop markets, time-incompatible, league-incompatible,
category-mismatched and unnormalizable candidates — keeping the best
token-set score over both orientations, with early termination at 95. -/
def candLoop (ctx : MatchCtx) (processed : List Value) (bg : Value)
    (nbh nba : String) :
    List Value → Option Value × ℚ × Option Bool →
    Except PyErr (Option Value × ℚ × Option Bool)
  | [], st => .ok st
  | ev :: rest, st => do
    let eid ← pyGetD ev "event_id" .vnone
    let mem ← setMem eid processed
    if mem then candLoop ctx processed bg nbh nba rest st
    else do
      let phr ← pyGetD ev "home_team" (.vstr "")
      let par ← pyGetD ev "away_team" (.vstr "")
      let isprop ← is_prop_market_by_name phr par
      if isprop then candLoop ctx processed bg nbh nba rest st
      else do
        let bt ← pyGetD bg "event_datetime" (.vstr "")
        let pt ← pyGetD ev "event_datetime" (.vstr "")
        if timeSkip ctx.parseIso bt pt then
          candLoop ctx processed bg nbh nba rest st
        else do
          let compat ← is_league_compatible bg ev
          if ¬compat then candLoop ctx processed bg nbh nba rest st
          else do
            let blg0 ← pyGetD bg "league" (.vstr "")
            let blg ← pyLowerS blg0
            let plg0 ← pyGetD ev "league" (.vstr "")
            let plg ← pyLowerS plg0
            let bsp0 ← pyGetD bg "sport" (.vstr "")
            let bsp ← pyLowerS bsp0
            let psp0 ← pyGetD ev "sport" (.vstr "")
            let psp ← pyLowerS psp0
            let bcat := sportCategory blg bsp
            let pcat := sportCategory plg psp
            if bcat.isSome ∧ pcat.isSome ∧ bcat ≠ pcat then
              candLoop ctx processed bg nbh nba rest st
            else do
              let nph ← normalizeV phr
              let npa ← normalizeV par
              if nph = "" ∨ npa = "" then candLoop ctx processed bg nbh nba rest st
              else
                let sd := ctx.tsr (nbh ++ " " ++ nba) (nph ++ " " ++ npa)
                let sf := ctx.tsr (nbh ++ " " ++ nba) (npa ++ " " ++ nph)
                if sd > st.2.1 then
                  if sd ≥ 95 then .ok (some ev, sd, some true)
                  else if sf > sd then
                    if sf ≥ 95 then .ok (some ev, sf, some false)
                    else candLoop ctx processed bg nbh nba rest (some ev, sf, some false)
                  else candLoop ctx processed bg nbh nba rest (some ev, sd, some true)
                else if sf > st.2.1 then
                  if sf ≥ 95 then .ok (some ev, sf, some false)
                  else candLoop ctx processed bg nbh nba rest (some ev, sf, some false)
                else candLoop ctx processed bg nbh nba rest st

/-- The betbck id of a game, as computed at both the skip check and the
matched-set update (match_games.py:307 and 469): key `betbck_game_id` with
an f-string of the two site team fields as default. -/
def bckId (g : Value) : Except PyErr Value := do
  let h ← pyGetD g "betbck_site_home_team" (.vstr "")
  let a ← pyGetD g "betbck_site_away_team" (.vstr "")
  pyGetD g "betbck_game_id" (.vstr (pyStr h ++ "_" ++ pyStr a))

/-- The outer loop of `match_pinnacle_to_betbck` (match_games.py:301-527)
over the secondary games, threading the processed reference ids, the
persistent matched-game ids and the accumulated match records. -/
def matchLoop (ctx : MatchCtx) (ebs : List (String × List Value)) :
    List Value → List Value × List Value × List MatchRec →
    Except PyErr (List Value × List Value × List MatchRec)
  | [], st => .ok st
  | bg :: rest, st => do
    let idH ← pyGetD bg "betbck_site_home_team" (.vstr "")
    let idA ← pyGetD bg "betbck_site_away_team" (.vstr "")
    let bid ← pyGetD bg "betbck_game_id" (.vstr (pyStr idH ++ "_" ++ pyStr idA))
    let mem ← setMem bid st.2.1
    if mem then matchLoop ctx ebs rest st
    else do
      let bhr ← pyGetD bg "betbck_site_home_team" (.vstr "")
      let bar ← pyGetD bg "betbck_site_away_team" (.vstr "")
      let nbh ← normalizeV bhr
      let nba ← normalizeV bar
      if nbh = "" ∨ nba = "" then matchLoop ctx ebs rest st
      else do
        let relevant := glookup ebs (determine_sport_from_teams nbh nba)
        let best ← candLoop ctx st.1 bg nbh nba relevant (none, 0, none)
        match best with
        | (some bm, score, orient) =>
          if truthy bm ∧ score ≥ 65 then do
            let eid ← pySub bm "event_id"
            let processed2 ← setAdd eid st.1
            let bid2 ← pyGetD bg "betbck_game_id"
              (.vstr (pyStr bhr ++ "_" ++ pyStr bar))
            let matched2 ← setAdd bid2 st.2.1
            let phv ← pySub bm "home_team"
            let pav ← pySub bm "away_team"
            let neh ← normalizeV phv
            let nea ← normalizeV pav
            let bodds ← pyGetD bg "betbck_site_odds" (.vdict [])
            let topml ← pyGetD bodds "site_top_team_moneyline_american" .vnone
            let botml ← pyGetD bodds "site_bottom_team_moneyline_american" .vnone
            let oddsPair :=
              if nbh = neh ∧ nba = nea then (topml, botml)
              else if nbh = nea ∧ nba = neh then (botml, topml)
              else (Value.vnone, Value.vnone)
            let r0 : MatchRec :=
              { pinnacle_event_id := eid,
                pinnacle_home_team := phv, pinnacle_away_team := pav,
                betbck_game := bg, match_confidence := score / 100,
                betbck_home_team := bhr, betbck_away_team := bar,
                normalized_betbck_home := nbh, normalized_betbck_away := nba,
                normalized_pinnacle_home := neh,
                normalized_pinnacle_away := nea,
                match_score := score,
                orientation := if orient = some true then "direct"
                  else "flipped",
                betbck_home_odds := oddsPair.1,
                betbck_away_odds := oddsPair.2,
                sport := determine_sport_from_teams nbh nba }
            matchLoop ctx ebs rest (processed2, matched2, st.2.2 ++ [r0])
          else matchLoop ctx ebs rest st
        | (none, _, _) => matchLoop ctx ebs rest st

/-- The trailing unmatched-diagnostics pass (match_games.py:529-538): it
only logs, but its membership probe and normalizations can still raise. -/
def unmatchedScan (processed : List Value) :
    List Value → Except PyErr Unit
  | [] => .ok ()
  | ev :: rest => do
    let eid ← pyGetD ev "event_id" .vnone
    let mem ← setMem eid processed
    if mem then unmatchedScan processed rest
    else do
      let h0 ← pyGetD ev "home_team" (.vstr "")
      let _ ← normalizeV h0
      let a0 ← pyGetD ev "away_team" (.vstr "")
      let _ ← normalizeV a0
      unmatchedScan processed rest

/-- `match_pinnacle_to_betbck` (match_games.py:252-560).  `matched0` is the
persistent `matched_betbck_ids` function attribute carried over from
earlier invocations; only the returned `matched_events` list is observable
(the unmatched collections feed logging only).  The summary logging divides
by `len(betbck_games)` and so raises `ZeroDivisionError` on an empty game
list. -/
def match_pinnacle_to_betbck (ctx : MatchCtx) (matched0 : List Value)
    (pinnacle_events : List Value) (betbck_data : Value) :
    Except PyErr (List MatchRec) := do
  let games ← pyGetD betbck_data "games" (.vlist [])
  let gl ← pyIter games
  let ebs ← groupEvents [] pinnacle_events
  let st ← matchLoop ctx ebs gl ([], matched0, [])
  let flat := ebs.foldr (fun p acc => p.2 ++ acc) []
  let _ ← unmatchedScan st.1 flat
  if gl.length = 0 then .error .zeroDivisionError
  else pure st.2.2

/-- Matcher context used to exercise the matcher concretely: a constant
100 similarity score and no parsable timestamps. -/
def c7Ctx : MatchCtx := ⟨fun _ _ => 100, fun _ => none⟩

/-- Two reference events with distinct ids. -/
def c7Ev1 : Value :=
  .vdict [("event_id", .vstr "E1"), ("home_team", .vstr "aa"),
          ("away_team", .vstr "bb")]

def c7Ev2 : Value :=
  .vdict [("event_id", .vstr "E2"), ("home_team", .vstr "cc"),
          ("away_team", .vstr "dd")]

/-- Two secondary games matching the two events. -/
def c7Bck : Value :=
  .vdict [("games", .vlist
    [.vdict [("betbck_site_home_team", .vstr "aa"),
             ("betbck_site_away_team", .vstr "bb")],
     .vdict [("betbck_site_home_team", .vstr "cc"),
             ("betbck_site_away_team", .vstr "dd")]])]

end Matcher


/-! ## Theorems -/

section OddsTheorems

theorem bankersRound_intCast (n : ℤ) : bankersRound (n : ℚ) = n := by
  simp [bankersRound, Int.floor_intCast]

theorem a2dNum_pos {q : ℚ} (h : 0 < q) : a2dNum q = some (q / 100 + 1) := by
  simp [a2dNum, h]

theorem a2dNum_neg {q : ℚ} (h : q < 0) : a2dNum q = some (100 / (-q) + 1) := by
  have : ¬ 0 < q := not_lt.mpr h.le
  simp [a2dNum, this, h]

/-- C2 (counterexample): at American odds −100 the round trip returns the
string `+100`, not `-100`, so the identity claimed on all of
`[-100000,-100] ∪ [100,100000]` fails at the endpoint −100. -/
theorem c2_roundtrip_counterexample :
    americanRoundTrip (-100) = some "+100" ∧ americanString (-100) = "-100" ∧
      ("+100" : String) ≠ "-100" := by
  refine ⟨by decide, by decide, by decide⟩

/-- C2 (amended): for every American odds integer `a` with
`100 ≤ a ≤ 100000` or `-100000 ≤ a ≤ -101`,
`decimal_to_american(american_to_decimal(a))` is exactly the canonical
American string for `a`.  (At `a = -100` the round trip instead produces
`+100`, the equal-price positive form.) -/
theorem c2_roundtrip_amended (a : ℤ)
    (h : (100 ≤ a ∧ a ≤ 100000) ∨ (-100000 ≤ a ∧ a ≤ -101)) :
    americanRoundTrip a = some (americanString a) := by
  rcases h with ⟨h1, _⟩ | ⟨h1, h2⟩
  · -- positive range
    have ha : (0 : ℚ) < (a : ℚ) := by exact_mod_cast lt_of_lt_of_le (by norm_num) h1
    have haQ : (100 : ℚ) ≤ (a : ℚ) := by exact_mod_cast h1
    have hq2 : (2 : ℚ) ≤ (a : ℚ) / 100 + 1 := by linarith
    have hnle : ¬ ((a : ℚ) / 100 + 1 ≤ 10001/10000) := by push_neg; linarith
    simp only [americanRoundTrip, american_to_decimal, a2dNum_pos ha, optToValue,
      decimal_to_american, isNumeric, numQ, Bool.not_true, Bool.false_eq_true,
      if_false, if_neg hnle, if_pos hq2]
    have harg : ((a : ℚ) / 100 + 1 - 1) * 100 = (a : ℚ) := by field_simp
    rw [harg, bankersRound_intCast]
    have : americanString a = "+" ++ toString a := by
      unfold americanString
      rw [if_pos (lt_of_lt_of_le (by norm_num) h1)]
    rw [this]
  · -- negative range
    have hb : (a : ℚ) < 0 := by exact_mod_cast lt_of_le_of_lt h2 (by norm_num)
    have hbQ : (101 : ℚ) ≤ -(a : ℚ) := by
      have : a ≤ -101 := h2
      have : (a : ℚ) ≤ -101 := by exact_mod_cast this
      linarith
    have hbU : -(a : ℚ) ≤ 100000 := by
      have : (-100000 : ℚ) ≤ (a : ℚ) := by exact_mod_cast h1
      linarith
    have hbpos : (0 : ℚ) < -(a : ℚ) := by linarith
    have hfrac_lt : 100 / (-(a : ℚ)) < 1 := by
      rw [div_lt_one hbpos]; linarith
    have hfrac_gt : 1/10000 < 100 / (-(a : ℚ)) := by
      rw [div_lt_div_iff₀ (by norm_num) hbpos]; linarith
    have hnle : ¬ (100 / (-(a : ℚ)) + 1 ≤ 10001/10000) := by push_neg; linarith
    have hn2 : ¬ ((2 : ℚ) ≤ 100 / (-(a : ℚ)) + 1) := by push_neg; linarith
    simp only [americanRoundTrip, american_to_decimal, a2dNum_neg hb, optToValue,
      decimal_to_american, isNumeric, numQ, Bool.not_true, Bool.false_eq_true,
      if_false, if_neg hnle, if_neg hn2]
    have harg : (-100 : ℚ) / (100 / (-(a : ℚ)) + 1 - 1) = (a : ℚ) := by
      field_simp
    rw [harg, bankersRound_intCast]
    have : americanString a = toString a := by
      unfold americanString
      rw [if_neg (not_lt.mpr (le_of_lt (lt_of_le_of_lt h2 (by norm_num))))]
    rw [this]

/-- Witness for `c2_roundtrip_amended` at `a = 150`. -/
theorem c2_roundtrip_amended_witness :
    ((100 ≤ (150 : ℤ) ∧ (150 : ℤ) ≤ 100000) ∨
      (-100000 ≤ (150 : ℤ) ∧ (150 : ℤ) ≤ -101)) ∧
      americanRoundTrip 150 = some (americanString 150) :=
  ⟨Or.inl ⟨by decide, by decide⟩,
    c2_roundtrip_amended 150 (Or.inl ⟨by decide, by decide⟩)⟩

/-- C4 (counterexample): `calculate_ev(-1, 2)` returns the value `0.0` — a
present float, not an absent result, contradicting "the result is absent
whenever either argument is non-positive". -/
theorem c4_ev_counterexample : calculate_ev (-1) 2 = 0 := by
  norm_num [calculate_ev]

/-- C4 (amended): `calculate_ev(b, t)` equals `b/t - 1` when both arguments
are positive, and equals the sentinel `0.0` (not an absent value) whenever
either argument is non-positive. -/
theorem c4_ev_amended (b t : ℚ) :
    (0 < b → 0 < t → calculate_ev b t = b / t - 1) ∧
      ((b ≤ 0 ∨ t ≤ 0) → calculate_ev b t = 0) := by
  constructor
  · intro hb ht
    have : ¬ (b = 0 ∨ t = 0 ∨ b ≤ 0 ∨ t ≤ 0) := by
      push_neg
      exact ⟨ne_of_gt hb, ne_of_gt ht, not_le.mp (by simpa using hb),
        not_le.mp (by simpa using ht)⟩
    simp [calculate_ev, this]
  · intro h
    have : b = 0 ∨ t = 0 ∨ b ≤ 0 ∨ t ≤ 0 := by tauto
    simp [calculate_ev, this]

/-- Witness for `c4_ev_amended` at `b = 2`, `t = 4`. -/
theorem c4_ev_amended_witness : calculate_ev 2 4 = 2 / 4 - 1 :=
  (c4_ev_amended 2 4).1 (by norm_num) (by norm_num)

end OddsTheorems

section NoVigTheorems

theorem posIn_eq_none_iff (l : List ℕ) (j : ℕ) : posIn l j = none ↔ j ∉ l := by
  induction l with
  | nil => simp [posIn]
  | cons a rest ih =>
    by_cases h : a = j
    · subst h; simp [posIn]
    · simp [posIn, if_neg h, Option.map_eq_none', ih, Ne.symm h]

theorem posIn_get? (l : List ℕ) (j i : ℕ) (h : posIn l j = some i) :
    l.get? i = some j := by
  induction l generalizing i with
  | nil => exact Option.noConfusion h
  | cons a rest ih =>
    by_cases ha : a = j
    · subst ha
      simp [posIn] at h
      subst h
      rfl
    · simp only [posIn, if_neg ha] at h
      cases hp : posIn rest j with
      | none => rw [hp] at h; cases h
      | some i' =>
        rw [hp] at h
        have h2 : i' + 1 = i := by simpa using h
        subst h2
        simpa using ih i' hp

theorem mem_validIndices_iff (odds_list : List Value) (i : ℕ) :
    i ∈ validIndices odds_list ↔
      i < odds_list.length ∧ isValidOdd (odds_list.getD i .vnone) := by
  simp [validIndices, List.mem_filter]

/-- C3 (counterexample): with a single valid entry `[2.0]` the no-vig
computation returns `[None]`, not the inputs unchanged as claimed. -/
theorem c3_passthrough_counterexample :
    calculate_nvp_for_market (fun l => l) [Value.vnum 2] = [none] ∧
      ([none] : List (Option ℚ)) ≠ [some 2] := by
  refine ⟨by decide, by decide⟩

/-- C3 (amended): when at least two entries are valid and the sum of implied
probabilities over the valid entries is at most 1.0001, every valid entry's
output fair price equals its input price and every invalid entry maps to
`None`; when fewer than two entries are valid the function instead returns a
list of `None`s of the input length (not the inputs unchanged). -/
theorem c3_passthrough_amended (adjust : List ℚ → List ℚ) (odds_list : List Value)
    (h2 : 2 ≤ (validIndices odds_list).length)
    (hs : impliedSum odds_list ≤ 10001/10000)
    (j : ℕ) (hj : j < odds_list.length) :
    (calculate_nvp_for_market adjust odds_list).getD j none =
      if isValidOdd (odds_list.getD j .vnone)
      then some (numQ (odds_list.getD j .vnone)) else none := by
  have hvpos : ∀ i ∈ validIndices odds_list,
      (0 : ℚ) < numQ (odds_list.getD i .vnone) := by
    intro i hi
    have := ((mem_validIndices_iff odds_list i).mp hi).2
    simp only [isValidOdd, Bool.and_eq_true, decide_eq_true_eq] at this
    linarith [this.2]
  have hnot2 : ¬ ((validIndices odds_list).length < 2) := not_lt.mpr h2
  have hnozero :
      ((validIndices odds_list).map
        (fun i => numQ (odds_list.getD i .vnone))).any (fun q => decide (q = 0)) = false := by
    rw [List.any_eq_false]
    intro q hq
    simp only [List.mem_map] at hq
    obtain ⟨i, hi, rfl⟩ := hq
    simpa using ne_of_gt (hvpos i hi)
  have hsum_eq :
      (((validIndices odds_list).map (fun i => numQ (odds_list.getD i .vnone))).map
        (fun q => 1 / q)).sum = impliedSum odds_list := by
    simp [impliedSum, List.map_map, Function.comp_def]
  have hsum_pos : 0 < impliedSum odds_list := by
    rw [← hsum_eq]
    apply List.sum_pos
    · intro x hx
      simp only [List.map_map, List.mem_map] at hx
      obtain ⟨i, hi, rfl⟩ := hx
      simpa using one_div_pos.mpr (hvpos i hi)
    · intro hnil
      rw [List.map_eq_nil_iff, List.map_eq_nil_iff] at hnil
      rw [hnil] at h2
      simp at h2
  have hsum_ne : ¬ ((((validIndices odds_list).map
        (fun i => numQ (odds_list.getD i .vnone))).map (fun q => 1 / q)).sum = 0) := by
    rw [hsum_eq]; exact ne_of_gt hsum_pos
  have hsum_le : (((validIndices odds_list).map
        (fun i => numQ (odds_list.getD i .vnone))).map (fun q => 1 / q)).sum ≤
      10001/10000 := by rw [hsum_eq]; exact hs
  unfold calculate_nvp_for_market
  rw [if_neg hnot2]
  simp only [hnozero, Bool.false_eq_true, if_false, if_neg hsum_ne, if_pos hsum_le]
  have hrange : ((List.range odds_list.length).map (fun j =>
      match posIn (validIndices odds_list) j with
      | some i => (((validIndices odds_list).map
          (fun i => numQ (odds_list.getD i .vnone))).map some).getD i none
      | none => none)).getD j none =
      (match posIn (validIndices odds_list) j with
      | some i => (((validIndices odds_list).map
          (fun i => numQ (odds_list.getD i .vnone))).map some).getD i none
      | none => none) := by
    rw [List.getD_eq_getElem?_getD, List.getElem?_map, List.getElem?_range hj]
    rfl
  rw [hrange]
  by_cases hv : isValidOdd (odds_list.getD j .vnone)
  · have hmem : j ∈ validIndices odds_list :=
      (mem_validIndices_iff odds_list j).mpr ⟨hj, hv⟩
    cases hp : posIn (validIndices odds_list) j with
    | none => exact absurd ((posIn_eq_none_iff _ _).mp hp) (by simpa using hmem)
    | some i =>
      have hget := posIn_get? _ _ _ hp
      simp only [if_pos hv]
      rw [List.getD_eq_getElem?_getD, List.getElem?_map, List.getElem?_map,
        ← List.get?_eq_getElem?, hget]
      rfl
  · have hnmem : j ∉ validIndices odds_list := by
      intro hmem
      exact hv ((mem_validIndices_iff odds_list j).mp hmem).2
    rw [(posIn_eq_none_iff _ _).mpr hnmem]
    simp only [List.getD_eq_getElem?_getD] at hv
    simp [hv]

/-- Witness for `c3_passthrough_amended`: the two-way market `[3.0, 3.0]`
has implied sum `2/3 ≤ 1.0001` and passes through unchanged at index 0. -/
theorem c3_passthrough_amended_witness :
    (calculate_nvp_for_market (fun l => l) [Value.vnum 3, Value.vnum 3]).getD 0 none =
      some 3 :=
  (c3_passthrough_amended (fun l => l) [Value.vnum 3, Value.vnum 3]
    (by decide) (by decide) 0 (by decide)).trans (by decide)

end NoVigTheorems

section NormalizerTheorems

/-- C8 (counterexample): `("czech republic", czechia)` is an alias pair, yet
`normalize_team_name_for_matching` maps each side to itself — it never
applies the alias table — so `normalize(alias) ≠ normalize(canonical)`. -/
theorem c8_alias_counterexample :
    ("czech republic", ["czechia"]) ∈ TEAM_ALIASES ∧
      normalize_team_name_for_matching "czechia" = "czechia" ∧
      normalize_team_name_for_matching "czech republic" = "czech republic" ∧
      normalize_team_name_for_matching "czechia" ≠
        normalize_team_name_for_matching "czech republic" := by
  refine ⟨by decide, by decide, by decide, by decide⟩

/-- C8 (amended): alias closure holds for the alias-table normalizer
`alias_normalize` (pod_utils.py:217): for every `(canonical, aliases)` entry
of `TEAM_ALIASES` and every alias in it,
`alias_normalize alias = alias_normalize canonical`.
`normalize_team_name_for_matching` itself does not consult the alias table
and satisfies the equation only for the pairs that its hard-coded rewrites
happen to cover. -/
theorem c8_alias_closure_amended :
    (TEAM_ALIASES.all
      (fun p => p.2.all (fun a => alias_normalize a = alias_normalize p.1))) = true := by
  decide

/-- C9 (counterexample): the club-prefix stripping loop runs only twice, so
`"fc fc fc team"` normalizes to `"fc team"`, which normalizes again to
`"team"` — the normalizer is not idempotent. -/
theorem c9_idem_counterexample :
    normalize_team_name_for_matching "fc fc fc team" = "fc team" ∧
      normalize_team_name_for_matching (normalize_team_name_for_matching "fc fc fc team") =
        "team" ∧
      normalize_team_name_for_matching (normalize_team_name_for_matching "fc fc fc team") ≠
        normalize_team_name_for_matching "fc fc fc team" := by
  refine ⟨by decide, by decide, by decide⟩

theorem dropWhile_eq_self_of_head {p : Char → Bool} {cs : List Char}
    (h : ∀ c, cs.head? = some c → p c = false) : cs.dropWhile p = cs := by
  cases cs with
  | nil => rfl
  | cons c rest => simp [List.dropWhile_cons, h c rfl]

theorem stripChars_eq_self {cs : List Char}
    (h1 : ∀ c, cs.head? = some c → isPySpace c = false)
    (h2 : ∀ c, cs.getLast? = some c → isPySpace c = false) :
    stripChars cs = cs := by
  unfold stripChars
  rw [dropWhile_eq_self_of_head h1,
    dropWhile_eq_self_of_head (fun c hc => h2 c (by rwa [List.head?_reverse] at hc)),
    List.reverse_reverse]

theorem stripLeadingNum_eq_self {cs : List Char}
    (h : ∀ c, cs.head? = some c → c.isDigit = false) : stripLeadingNum cs = cs := by
  cases cs with
  | nil => rfl
  | cons c rest => simp [stripLeadingNum, h c rfl]

theorem plain_toLower {c : Char} (h : c ∈ plainChars) : c.toLower = c := by
  have hall : plainChars.all (fun c => c.toLower = c) = true := by decide
  simpa using List.all_eq_true.mp hall c h

theorem plain_keep {c : Char} (h : c ∈ plainChars) : keepChar c = true := by
  have hall : plainChars.all keepChar = true := by decide
  exact List.all_eq_true.mp hall c h

theorem plain_ne_dash {c : Char} (h : c ∈ plainChars) : c ≠ '-' := by
  have hall : plainChars.all (fun c => c ≠ '-') = true := by decide
  simpa using List.all_eq_true.mp hall c h

theorem plain_ne_lparen {c : Char} (h : c ∈ plainChars) : c ≠ '(' := by
  have hall : plainChars.all (fun c => c ≠ '(') = true := by decide
  simpa using List.all_eq_true.mp hall c h

theorem plain_space_eq {c : Char} (h : c ∈ plainChars) (hs : isPySpace c = true) :
    c = ' ' := by
  have hall : plainChars.all (fun c => !isPySpace c || c = ' ') = true := by decide
  have := List.all_eq_true.mp hall c h
  simp only [Bool.or_eq_true, Bool.not_eq_true'] at this
  rcases this with h' | h'
  · rw [hs] at h'; cases h'
  · simpa using h'

theorem lcLetter_word {c : Char} (h : c ∈ lcLetters) : isWordChar c = true := by
  have hall : lcLetters.all isWordChar = true := by decide
  exact List.all_eq_true.mp hall c h

theorem lcLetter_not_space {c : Char} (h : c ∈ lcLetters) : isPySpace c = false := by
  have hall : lcLetters.all (fun c => !isPySpace c) = true := by decide
  simpa using List.all_eq_true.mp hall c h

theorem lcLetter_not_digit {c : Char} (h : c ∈ lcLetters) : c.isDigit = false := by
  have hall : lcLetters.all (fun c => !c.isDigit) = true := by decide
  simpa using List.all_eq_true.mp hall c h

theorem lastChar_word {c : Char} (h : c ∈ lcLetters ++ "0123456789".data) :
    isWordChar c = true := by
  have hall : (lcLetters ++ "0123456789".data).all isWordChar = true := by decide
  exact List.all_eq_true.mp hall c h

theorem lastChar_not_space {c : Char} (h : c ∈ lcLetters ++ "0123456789".data) :
    isPySpace c = false := by
  have hall : (lcLetters ++ "0123456789".data).all (fun c => !isPySpace c) = true := by
    decide
  simpa using List.all_eq_true.mp hall c h

theorem map_eq_self_of_mem {cs : List Char} {f : Char → Char}
    (h : ∀ c ∈ cs, f c = c) : cs.map f = cs := by
  induction cs with
  | nil => rfl
  | cons c t ih =>
    simp only [List.map_cons, h c (List.mem_cons_self c t), List.cons.injEq, true_and]
    exact ih (fun c hc => h c (List.mem_cons_of_mem _ hc))

theorem matchDashMustStart_dash {cs : List Char} (h : matchDashMustStart cs = true) :
    '-' ∈ cs := by
  unfold matchDashMustStart at h
  split at h
  · next rest heq =>
    have hm : '-' ∈ cs.dropWhile isPySpace := by
      rw [heq]; exact List.mem_cons_self _ _
    exact List.IsSuffix.mem hm (List.dropWhile_suffix _)
  · exact absurd h (by simp)

theorem alphaPlus_suffix {cs rest : List Char} (h : alphaPlus cs = some rest) :
    rest <:+ cs := by
  cases cs with
  | nil => cases h
  | cons c t =>
    unfold alphaPlus at h
    by_cases hc : c.isAlpha
    · simp only [hc, if_true, Option.some.injEq] at h
      subst h
      exact (List.dropWhile_suffix _).trans (List.suffix_cons c t)
    · simp [hc] at h

theorem wsPlus_suffix {cs rest : List Char} (h : wsPlus cs = some rest) :
    rest <:+ cs := by
  cases cs with
  | nil => cases h
  | cons c t =>
    unfold wsPlus at h
    by_cases hc : isPySpace c
    · simp only [hc, if_true, Option.some.injEq] at h
      subst h
      exact (List.dropWhile_suffix _).trans (List.suffix_cons c t)
    · simp [hc] at h

theorem pitcherTail1_dash {cs : List Char} (h : pitcherTail1 cs = true) : '-' ∈ cs := by
  unfold pitcherTail1 at h
  split at h
  · next cs1 h1 =>
    split at h
    · next cs2 h2 =>
      split at h
      · next cs3 h3 =>
        exact ((alphaPlus_suffix h3).trans ((wsPlus_suffix h2).trans
          (alphaPlus_suffix h1))).mem (matchDashMustStart_dash h)
      · exact absurd h (by simp)
    · exact absurd h (by simp)
  · exact absurd h (by simp)

theorem pitcherTail2_dash {cs : List Char} (h : pitcherTail2 cs = true) : '-' ∈ cs := by
  unfold pitcherTail2 at h
  split at h
  · next cs1 h1 =>
    exact (alphaPlus_suffix h1).mem (matchDashMustStart_dash h)
  · exact absurd h (by simp)

theorem pitcherTail3_dash {cs : List Char} (h : pitcherTail3 cs = true) : '-' ∈ cs := by
  cases cs with
  | nil => cases h
  | cons c t =>
    unfold pitcherTail3 at h
    rw [Bool.and_eq_true] at h
    exact (List.suffix_cons c t).mem (matchDashMustStart_dash h.2)

theorem lazyGroup_some_tail {tail : List Char → Bool} {acc cs g : List Char}
    (h : lazyGroup tail acc cs = some g) :
    ∃ rest, rest <:+ cs ∧ tail rest = true := by
  induction cs generalizing acc with
  | nil => cases h
  | cons c t ih =>
    unfold lazyGroup at h
    by_cases hc : (c.isAlpha || isPySpace c) = true
    · rw [if_pos hc] at h
      by_cases ht : tail t = true
      · exact ⟨t, List.suffix_cons c t, ht⟩
      · simp only [ht, Bool.false_eq_true, if_false] at h
        obtain ⟨rest, hr, htr⟩ := ih h
        exact ⟨rest, hr.trans (List.suffix_cons c t), htr⟩
    · rw [if_neg hc] at h; cases h

theorem pitcherStage_eq_self {cs : List Char} (hnd : '-' ∉ cs) :
    pitcherStage cs = cs := by
  have k : ∀ tail : List Char → Bool, (∀ r, tail r = true → '-' ∈ r) →
      lazyGroup tail [] cs = none := by
    intro tail htail
    cases hl : lazyGroup tail [] cs with
    | none => rfl
    | some g =>
      obtain ⟨rest, hr, ht⟩ := lazyGroup_some_tail hl
      exact absurd (hr.mem (htail rest ht)) hnd
  unfold pitcherStage
  rw [k pitcherTail1 (fun r => pitcherTail1_dash),
    k pitcherTail2 (fun r => pitcherTail2_dash),
    k pitcherTail3 (fun r => pitcherTail3_dash)]

theorem startsWith_contains {cs l : List Char} (h : startsWithL cs l = true) :
    containsSubL cs l = true := by
  cases cs with
  | nil => simpa [containsSubL] using h
  | cons c t => simp [containsSubL, h]

theorem containsSub_suffix_mono {cs rest l : List Char} (hsuf : rest <:+ cs)
    (h : containsSubL rest l = true) : containsSubL cs l = true := by
  obtain ⟨t, rfl⟩ := hsuf
  induction t with
  | nil => simpa
  | cons c ts ih => simp [containsSubL, ih]

theorem expectCI_isSome_startsWith {lit cs : List Char}
    (hlow1 : ∀ c ∈ cs, c.toLower = c) (hlow2 : ∀ c ∈ lit, c.toLower = c)
    (hs : (expectCI lit cs).isSome = true) : startsWithL cs lit = true := by
  induction lit generalizing cs with
  | nil => cases cs <;> simp [startsWithL]
  | cons l ls ih =>
    cases cs with
    | nil => simp [expectCI] at hs
    | cons c t =>
      unfold expectCI at hs
      by_cases he : c.toLower = l.toLower
      · rw [if_pos he] at hs
        have hc : c = l := by
          rw [← hlow1 c (List.mem_cons_self c t), ← hlow2 l (List.mem_cons_self l ls), he]
        subst hc
        simp only [startsWithL, Bool.and_eq_true]
        exact ⟨by simp, ih (fun d hd => hlow1 d (List.mem_cons_of_mem _ hd))
          (fun d hd => hlow2 d (List.mem_cons_of_mem _ hd)) hs⟩
      · rw [if_neg he] at hs; cases hs

theorem trophyFires_contains {rest : List Char}
    (hlow : ∀ c ∈ rest, c.toLower = c)
    (h : trophyFires rest = true) :
    ∃ hh ∈ trophyHeads, containsSubL rest hh = true := by
  unfold trophyFires at h
  obtain ⟨hh, hmem, hsome⟩ := List.any_eq_true.mp h
  refine ⟨hh, hmem, ?_⟩
  have hd : rest.dropWhile isPySpace <:+ rest := List.dropWhile_suffix _
  have hlow2 : ∀ c ∈ hh, c.toLower = c := by
    have hall : trophyHeads.all (fun h => h.all (fun c => c.toLower = c)) = true := by
      decide
    intro c hc
    simpa using List.all_eq_true.mp (List.all_eq_true.mp hall hh hmem) c hc
  have hst := expectCI_isSome_startsWith (fun c hc => hlow c (hd.mem hc)) hlow2 hsome
  exact containsSub_suffix_mono hd (startsWith_contains hst)

theorem trophyGo_none {cs : List Char}
    (h : ∀ rest, rest <:+ cs → trophyFires rest = false) (acc : List Char) :
    trophyGo acc cs = none := by
  induction cs generalizing acc with
  | nil => rfl
  | cons c t ih =>
    unfold trophyGo
    by_cases hc : c = '\n'
    · simp [hc]
    · rw [if_neg hc, h t (List.suffix_cons c t)]
      simp only [Bool.false_eq_true, if_false]
      exact ih (fun rest hr => h rest (hr.trans (List.suffix_cons c t))) _

theorem trophyStage_eq_self {cs : List Char}
    (hlow : ∀ c ∈ cs, c.toLower = c)
    (hno : ∀ hh ∈ trophyHeads, containsSubL cs hh = false) :
    trophyStage cs = cs := by
  unfold trophyStage
  rw [trophyGo_none ?hfires []]
  case hfires =>
    intro rest hr
    by_contra hf
    rw [Bool.not_eq_false] at hf
    obtain ⟨hh, hm, hc⟩ := trophyFires_contains (fun c hcm => hlow c (hr.mem hcm)) hf
    have := containsSub_suffix_mono hr hc
    rw [hno hh hm] at this
    cases this

theorem stage5_eq_self {cs : List Char}
    (hend : ∀ lit ∈ parenTagLits, endsWithL cs lit = false)
    (h1 : ∀ c, cs.head? = some c → isPySpace c = false)
    (h2 : ∀ c, cs.getLast? = some c → isPySpace c = false) :
    stage5 cs = cs := by
  unfold stage5
  rw [List.find?_eq_none.mpr (fun lit hm => by simp [hend lit hm])]
  exact stripChars_eq_self h1 h2

theorem parenMatchAt_mem {cs rest : List Char} (h : parenMatchAt cs = some rest) :
    '(' ∈ cs := by
  unfold parenMatchAt at h
  split at h
  · next r heq =>
    have hm : '(' ∈ cs.dropWhile isPySpace := by
      rw [heq]; exact List.mem_cons_self _ _
    exact (List.dropWhile_suffix _).mem hm
  · cases h

theorem findParenMatch_none {cs : List Char} (h : '(' ∉ cs) :
    findParenMatch cs = none := by
  induction cs with
  | nil => rfl
  | cons c t ih =>
    unfold findParenMatch
    cases hp : parenMatchAt (c :: t) with
    | some after => exact absurd (parenMatchAt_mem hp) h
    | none =>
      rw [ih (fun hm => h (List.mem_cons_of_mem _ hm))]
      rfl

theorem removeParenGroups_eq_self {cs : List Char} (h : '(' ∉ cs) (fuel : ℕ) :
    removeParenGroups fuel cs = cs := by
  cases fuel with
  | zero => rfl
  | succ f =>
    unfold removeParenGroups
    rw [findParenMatch_none h]

theorem foldl_applySfx_eq_self {cs : List Char} {L : List String}
    (h : ∀ s ∈ L, endsWithL cs s.data = false) :
    L.foldl (fun acc s => applySfx acc s.data) cs = cs := by
  induction L with
  | nil => rfl
  | cons s t ih =>
    simp only [List.foldl_cons]
    rw [show applySfx cs s.data = cs from by
      unfold applySfx; rw [h s (List.mem_cons_self s t)]; rfl]
    exact ih (fun s' hm => h s' (List.mem_cons_of_mem _ hm))

theorem foldl_pfx_eq_self {cs : List Char} {L : List String}
    (h : ∀ p ∈ L, startsWithL cs p.data = false) :
    L.foldl
      (fun acc p => if startsWithL acc p.data then stripChars (acc.drop p.data.length)
        else acc) cs = cs := by
  induction L with
  | nil => rfl
  | cons p t ih =>
    simp only [List.foldl_cons]
    rw [show (if startsWithL cs p.data then stripChars (cs.drop p.data.length)
        else cs) = cs from by rw [if_neg (by simp [h p (List.mem_cons_self p t)])]]
    exact ih (fun p' hm => h p' (List.mem_cons_of_mem _ hm))

theorem pfxPass_eq_self {cs : List Char}
    (h : ∀ p ∈ clubPfx, startsWithL cs p.data = false) : pfxPass cs = cs :=
  foldl_pfx_eq_self h

theorem stage9_eq_self {nameL norm : List Char}
    (h : ∀ t ∈ rewriteTriggers, containsSubL nameL t = false)
    (hne : nameL ≠ "internazionale".data) : stage9 nameL norm = norm := by
  have h1 := h "tottenham hotspur".data (by decide)
  have h2 := h "paris saint germain".data (by decide)
  have h3 := h "paris sg".data (by decide)
  have h4 := h "new york".data (by decide)
  have h5 := h "los angeles".data (by decide)
  have h6 := h "st louis".data (by decide)
  have h7 := h "inter milan".data (by decide)
  have h8 := h "rheindorf altach".data (by decide)
  have h9 := h "scr altach".data (by decide)
  simp [stage9, h1, h2, h3, h4, h5, h6, h7, h8, h9, hne]

theorem dropNonWordEnds_eq_self {cs : List Char}
    (h1 : ∀ c, cs.head? = some c → isWordChar c = true)
    (h2 : ∀ c, cs.getLast? = some c → isWordChar c = true) :
    dropNonWordEnds cs = cs := by
  unfold dropNonWordEnds
  have e1 : cs.dropWhile (fun c => !isWordChar c) = cs :=
    dropWhile_eq_self_of_head (fun c hc => by simp [h1 c hc])
  rw [e1]
  have e2 : cs.reverse.dropWhile (fun c => !isWordChar c) = cs.reverse :=
    dropWhile_eq_self_of_head
      (fun c hc => by simp [h2 c (by rwa [List.head?_reverse] at hc)])
  rw [e2, List.reverse_reverse]

theorem noDoubleSpace_tail {c : Char} {t : List Char}
    (h : noDoubleSpace (c :: t) = true) : noDoubleSpace t = true := by
  cases t with
  | nil => rfl
  | cons d r =>
    unfold noDoubleSpace at h
    rw [Bool.and_eq_true] at h
    exact h.2

theorem collapseGo_eq_self : ∀ n : ℕ, ∀ cs : List Char, cs.length ≤ n →
    noDoubleSpace cs = true →
    (∀ c ∈ cs, isPySpace c = true → c = ' ') →
    (∀ c, cs.getLast? = some c → isPySpace c = false) →
    (collapseGo true false cs = cs ∧
      ((∀ c, cs.head? = some c → isPySpace c = false) →
        collapseGo false false cs = cs)) := by
  intro n
  induction n with
  | zero =>
    intro cs hlen _ _ _
    have : cs = [] := List.length_eq_zero.mp (Nat.le_zero.mp hlen)
    subst this
    exact ⟨rfl, fun _ => rfl⟩
  | succ n ih =>
    intro cs hlen hnd hsp hlast
    cases cs with
    | nil => exact ⟨rfl, fun _ => rfl⟩
    | cons c t =>
      by_cases hc : isPySpace c = true
      · -- leading char is a space: only the emitted-word state is claimed
        have hceq : c = ' ' := hsp c (List.mem_cons_self c t) hc
        cases t with
        | nil =>
          exfalso
          have := hlast c (by simp)
          rw [hc] at this; cases this
        | cons d t' =>
          have hd : isPySpace d = false := by
            unfold noDoubleSpace at hnd
            rw [Bool.and_eq_true] at hnd
            have := hnd.1
            rw [hc] at this
            simpa using this
          have ht' : collapseGo true false t' = t' :=
            (ih t' (by simp only [List.length_cons] at hlen; omega)
              (noDoubleSpace_tail (noDoubleSpace_tail hnd))
              (fun x hx => hsp x (List.mem_cons_of_mem _ (List.mem_cons_of_mem _ hx)))
              (fun x hx => hlast x (by
                rw [List.getLast?_cons_cons]
                cases t' with
                | nil => simp at hx
                | cons e r => rwa [List.getLast?_cons_cons]))).1
          constructor
          · show collapseGo true false (c :: d :: t') = c :: d :: t'
            simp only [collapseGo, hc, hd]
            simp [ht', hceq]
          · intro hhead
            have := hhead c rfl
            rw [hc] at this; cases this
      · -- leading char is not a space
        have hd : isPySpace c = false := by simpa using hc
        have htail := ih t (by simp only [List.length_cons] at hlen; omega)
          (noDoubleSpace_tail hnd)
          (fun x hx => hsp x (List.mem_cons_of_mem _ hx))
          (fun x hx => hlast x (by
            cases t with
            | nil => cases hx
            | cons e r => rwa [List.getLast?_cons_cons]))
        constructor
        · show collapseGo true false (c :: t) = c :: t
          simp only [collapseGo, hd]
          simp [htail.1]
        · intro _
          show collapseGo false false (c :: t) = c :: t
          simp only [collapseGo, hd]
          simp [htail.1]

theorem collapseWs_eq_self {cs : List Char}
    (hnd : noDoubleSpace cs = true)
    (hsp : ∀ c ∈ cs, isPySpace c = true → c = ' ')
    (hhead : ∀ c, cs.head? = some c → isPySpace c = false)
    (hlast : ∀ c, cs.getLast? = some c → isPySpace c = false) :
    collapseWs cs = cs :=
  (collapseGo_eq_self cs.length cs le_rfl hnd hsp hlast).2 hhead

theorem normalize_fixed {s : String} (h : normPlain s.data = true) :
    normalize_team_name_for_matching s = s := by
  obtain ⟨data⟩ := s
  simp only [normPlain, Bool.and_eq_true] at h
  obtain ⟨⟨⟨⟨⟨⟨⟨⟨⟨⟨hne, hall⟩, hhead⟩, hlast⟩, hnd⟩, htro⟩, hpar⟩, hsfx⟩, hpfx⟩,
    hrew⟩, hint⟩ := h
  have hplain : ∀ c ∈ data, c ∈ plainChars := by
    intro c hc
    have := List.all_eq_true.mp hall c hc
    simpa [List.contains] using this
  have hlow : ∀ c ∈ data, c.toLower = c := fun c hc => plain_toLower (hplain c hc)
  have hheadL : ∀ c, data.head? = some c → c ∈ lcLetters := by
    intro c hc
    rw [hc] at hhead
    simpa [List.contains] using hhead
  have hlastL : ∀ c, data.getLast? = some c → c ∈ lcLetters ++ "0123456789".data := by
    intro c hc
    rw [hc] at hlast
    simpa [List.contains] using hlast
  have hheadNS : ∀ c, data.head? = some c → isPySpace c = false :=
    fun c hc => lcLetter_not_space (hheadL c hc)
  have hheadND : ∀ c, data.head? = some c → c.isDigit = false :=
    fun c hc => lcLetter_not_digit (hheadL c hc)
  have hheadW : ∀ c, data.head? = some c → isWordChar c = true :=
    fun c hc => lcLetter_word (hheadL c hc)
  have hlastNS : ∀ c, data.getLast? = some c → isPySpace c = false :=
    fun c hc => lastChar_not_space (hlastL c hc)
  have hlastW : ∀ c, data.getLast? = some c → isWordChar c = true :=
    fun c hc => lastChar_word (hlastL c hc)
  have hnodash : '-' ∉ data := fun hm => plain_ne_dash (hplain _ hm) rfl
  have hnoparen : '(' ∉ data := fun hm => plain_ne_lparen (hplain _ hm) rfl
  have hdata_ne : data ≠ [] := by simpa using hne
  have hs_ne : String.mk data ≠ "" := by
    intro hcon
    exact hdata_ne (congrArg String.data hcon)
  unfold normalize_team_name_for_matching
  rw [if_neg hs_ne]
  show (let cs1 := stripChars (stripLeadingNum (String.mk data).data); _) = String.mk data
  simp only []
  have e1 : stripChars (stripLeadingNum data) = data := by
    rw [stripLeadingNum_eq_self hheadND]
    exact stripChars_eq_self hheadNS hlastNS
  have e2 : pitcherStage data = data := pitcherStage_eq_self hnodash
  have e3 : trophyStage data = data :=
    trophyStage_eq_self hlow (fun hh hm => by
      have := List.all_eq_true.mp htro hh hm
      simpa using this)
  have e4 : data.map Char.toLower = data := map_eq_self_of_mem hlow
  have e5 : stage5 data = data :=
    stage5_eq_self (fun lit hm => by simpa using List.all_eq_true.mp hpar lit hm)
      hheadNS hlastNS
  have e6 : stripChars (removeParenGroups data.length data) = data := by
    rw [removeParenGroups_eq_self hnoparen]
    exact stripChars_eq_self hheadNS hlastNS
  have e7 : stage7 data = data :=
    foldl_applySfx_eq_self (fun s hm => by simpa using List.all_eq_true.mp hsfx s hm)
  have e8 : pfxPass data = data :=
    pfxPass_eq_self (fun p hm => by simpa using List.all_eq_true.mp hpfx p hm)
  have e9 : stage9 data data = data :=
    stage9_eq_self (fun t hm => by simpa using List.all_eq_true.mp hrew t hm)
      (by simpa using hint)
  have e10 : dropNonWordEnds data = data := dropNonWordEnds_eq_self hheadW hlastW
  have e11 : data.filter keepChar = data :=
    List.filter_eq_self.mpr (fun c hc => plain_keep (hplain c hc))
  have e12 : collapseWs data = data :=
    collapseWs_eq_self
      (by simpa using hnd)
      (fun c hc hs => plain_space_eq (hplain c hc) hs)
      hheadNS hlastNS
  rw [e1, e2, e3, e4, e5, e6, e7, e8, e8, e9, e10, e11, e12]
  rw [if_neg hdata_ne]

/-- C9 (amended): the normalizer is idempotent on every input whose
normalized form is a plain name — non-empty, over lowercase letters, digits,
space, dot and plus, letter-initial, letter-or-digit-final, without doubled
spaces, and free of every suffix, club prefix, trophy phrase, market tag and
rewrite trigger the normalizer reacts to (`normPlain`).  In general
idempotence fails (see the counterexample): a second pass can strip further
club prefixes or league suffixes. -/
theorem c9_idem_amended (x : String)
    (h : normPlain (normalize_team_name_for_matching x).data = true) :
    normalize_team_name_for_matching (normalize_team_name_for_matching x) =
      normalize_team_name_for_matching x :=
  normalize_fixed h

/-- Witness for `c9_idem_amended` at `x = "Lakers"`. -/
theorem c9_idem_amended_witness :
    normPlain (normalize_team_name_for_matching "Lakers").data = true ∧
      normalize_team_name_for_matching (normalize_team_name_for_matching "Lakers") =
        normalize_team_name_for_matching "Lakers" :=
  ⟨by decide, c9_idem_amended "Lakers" (by decide)⟩

end NormalizerTheorems

section EvEngineTheorems

theorem bind_ok_inv {α β : Type} {x : Except PyErr α} {f : α → Except PyErr β} {b : β}
    (h : (x >>= f) = .ok b) : ∃ a, x = .ok a ∧ f a = .ok b := by
  cases x with
  | error e => simp [Bind.bind, Except.bind] at h
  | ok a => exact ⟨a, rfl, by simpa [Bind.bind, Except.bind] using h⟩

theorem pyGetD_dict {v : Value} (h : isDict v = true) (k : String) (d : Value) :
    pyGetD v k d = .ok (dGet v k d) := by
  cases v <;> simp_all [isDict, pyGetD, dGet]

theorem pySub_of_truthy_get {v : Value} (h : isDict v = true) {k : String}
    (ht : truthy (dGet v k .vnone) = true) : pySub v k = .ok (dGet v k .vnone) := by
  cases v with
  | vdict xs =>
    cases hl : dlookup xs k with
    | none => rw [dGet, hl] at ht; cases ht
    | some w => simp [pySub, dGet, hl]
  | vnone => cases h
  | vbool b => cases h
  | vnum q => cases h
  | vstr s => cases h
  | vlist l => cases h

/-- C10: the EV engine is total — for every pair of input values, including
`None`, non-dict values and malformed period or market sub-objects,
`analyze_markets_for_ev` returns a row list; every failure inside the
analysis body is caught (modelled by `catchRows`), and the statements before
the `try` block cannot raise. -/
theorem isOk_pure (l : List BetRow) :
    (pure l : Except PyErr (List BetRow)).isOk = true := rfl

theorem c10_engine_total (b p : Value) :
    (analyze_markets_for_ev b p).isOk = true := by
  unfold analyze_markets_for_ev
  by_cases h1 : validate_period_separation (copyOf b) (copyOf p)
  case neg => simp [h1, isOk_pure]
  case pos =>
    simp only [h1, not_true, if_false, ite_false, ite_true, if_true]
    by_cases h2 : truthy (copyOf p) = true
    case neg => simp [h2, isOk_pure]
    case pos =>
      by_cases h3 : isDict (copyOf p) = true
      case neg => simp [h2, h3, isOk_pure]
      case pos =>
        rw [if_neg (by simp [h2]), if_neg (by simp [h3]),
          pyGetD_dict h3 "data" .vnone]
        by_cases h4 : truthy (dGet (copyOf p) "data" .vnone) = true
        case neg =>
          simp [Bind.bind, Except.bind, h4, isOk_pure]
        case pos =>
          rw [show ((Except.ok (dGet (copyOf p) "data" .vnone) :
              Except PyErr Value) >>= fun d =>
              if ¬truthy d = true then pure []
              else do
                let d2 ← pySub (copyOf p) "data"
                if isNone d2 = true then pure []
                else pure (catchRows (tryBody (copyOf b) (copyOf p)))) =
              (if ¬truthy (dGet (copyOf p) "data" .vnone) = true then pure []
              else do
                let d2 ← pySub (copyOf p) "data"
                if isNone d2 = true then pure []
                else pure (catchRows (tryBody (copyOf b) (copyOf p)))) from rfl]
          rw [if_neg (by simp [h4]), pySub_of_truthy_get h3 h4]
          by_cases h5 : isNone (dGet (copyOf p) "data" .vnone) = true
          · simp [Bind.bind, Except.bind, h5, isOk_pure]
          · simp [Bind.bind, Except.bind, h5, isOk_pure]

/-- C6 (counterexample): the guard also fires when the secondary game has
first-half data and the reference event HAS period 1 but lacks period 0 —
refuting "this is the condition under which the guard fires" (the claimed
condition requires the reference to lack both periods). -/
theorem c6_guard_counterexample :
    validate_period_separation
        (Value.vdict [("1H_data", Value.vdict [("x", Value.vnum 1)])])
        (Value.vdict [("data", Value.vdict [("periods",
          Value.vdict [("num_1", Value.vdict [("y", Value.vnum 1)])])])]) = false ∧
      truthy (dGet (dGet (dGet
        (Value.vdict [("data", Value.vdict [("periods",
          Value.vdict [("num_1", Value.vdict [("y", Value.vnum 1)])])])])
        "data" (.vdict [])) "periods" (.vdict [])) "num_1" .vnone) = true ∧
      analyze_markets_for_ev
        (Value.vdict [("1H_data", Value.vdict [("x", Value.vnum 1)])])
        (Value.vdict [("data", Value.vdict [("periods",
          Value.vdict [("num_1", Value.vdict [("y", Value.vnum 1)])])])]) = .ok [] := by
  refine ⟨rfl, rfl, rfl⟩

/-- C6 (amended): for dict-shaped inputs, the period-separation guard fires
exactly when (the secondary game has truthy `1H_data` OR the reference has a
truthy period 1) AND the reference lacks a truthy period 0; whenever the
guard fires on the defensively-copied inputs, `analyze_markets_for_ev`
aborts and returns the empty list. -/
theorem c6_guard_amended (bet pin : Value)
    (hb : isDict bet = true) (hp : isDict pin = true)
    (hd : isDict (dGet pin "data" (.vdict [])) = true)
    (hper : isDict (dGet (dGet pin "data" (.vdict [])) "periods" (.vdict [])) = true) :
    (validate_period_separation bet pin = false ↔
      ((truthy (dGet bet "1H_data" .vnone) = true ∨
        truthy (pyOr
          (dGet (dGet (dGet pin "data" (.vdict [])) "periods" (.vdict [])) "num_1" .vnone)
          (dGet (dGet (dGet pin "data" (.vdict [])) "periods" (.vdict [])) "1" .vnone)) = true) ∧
       truthy (pyOr
          (dGet (dGet (dGet pin "data" (.vdict [])) "periods" (.vdict [])) "num_0" .vnone)
          (dGet (dGet (dGet pin "data" (.vdict [])) "periods" (.vdict [])) "0" .vnone)) = false)) ∧
    (validate_period_separation (copyOf bet) (copyOf pin) = false →
      analyze_markets_for_ev bet pin = .ok []) := by
  constructor
  · unfold validate_period_separation validateExc
    simp only [pyGetD_dict hb, pyGetD_dict hp, pyGetD_dict hd, pyGetD_dict hper,
      Bind.bind, Except.bind]
    by_cases h1 : truthy (dGet bet "1H_data" .vnone) = true
    · by_cases h0 : truthy (pyOr
          (dGet (dGet (dGet pin "data" (.vdict [])) "periods" (.vdict [])) "num_0" .vnone)
          (dGet (dGet (dGet pin "data" (.vdict [])) "periods" (.vdict [])) "0" .vnone)) = true
      · by_cases hq : truthy (pyOr
            (dGet (dGet (dGet pin "data" (.vdict [])) "periods" (.vdict [])) "num_1" .vnone)
            (dGet (dGet (dGet pin "data" (.vdict [])) "periods" (.vdict [])) "1" .vnone)) = true
        · simp [h1, h0, hq, pure, Except.pure]
        · simp [h1, h0, hq, pure, Except.pure]
      · simp [h1, h0, pure, Except.pure]
    · by_cases h0 : truthy (pyOr
          (dGet (dGet (dGet pin "data" (.vdict [])) "periods" (.vdict [])) "num_0" .vnone)
          (dGet (dGet (dGet pin "data" (.vdict [])) "periods" (.vdict [])) "0" .vnone)) = true
      · by_cases hq : truthy (pyOr
            (dGet (dGet (dGet pin "data" (.vdict [])) "periods" (.vdict [])) "num_1" .vnone)
            (dGet (dGet (dGet pin "data" (.vdict [])) "periods" (.vdict [])) "1" .vnone)) = true
        · simp [h1, h0, hq, pure, Except.pure]
        · simp [h1, h0, hq, pure, Except.pure]
      · by_cases hq : truthy (pyOr
            (dGet (dGet (dGet pin "data" (.vdict [])) "periods" (.vdict [])) "num_1" .vnone)
            (dGet (dGet (dGet pin "data" (.vdict [])) "periods" (.vdict [])) "1" .vnone)) = true
        · simp [h1, h0, hq, pure, Except.pure]
        · simp [h1, h0, hq, pure, Except.pure]
  · intro hv
    unfold analyze_markets_for_ev
    simp [hv, pure, Except.pure]

/-- Witness for `c6_guard_amended`: secondary with 1H data, reference with
an empty periods dict — the guard fires and the engine emits no rows. -/
theorem c6_guard_amended_witness :
    validate_period_separation
        (Value.vdict [("1H_data", Value.vdict [("x", Value.vnum 1)])])
        (Value.vdict [("data", Value.vdict [("periods", Value.vdict [])])]) = false ∧
      analyze_markets_for_ev
        (Value.vdict [("1H_data", Value.vdict [("x", Value.vnum 1)])])
        (Value.vdict [("data", Value.vdict [("periods", Value.vdict [])])]) = .ok [] := by
  have h := c6_guard_amended
    (Value.vdict [("1H_data", Value.vdict [("x", Value.vnum 1)])])
    (Value.vdict [("data", Value.vdict [("periods", Value.vdict [])])])
    rfl rfl rfl rfl
  refine ⟨h.1.mpr ⟨Or.inl rfl, rfl⟩, h.2 ?_⟩
  exact h.1.mpr ⟨Or.inl rfl, rfl⟩

theorem pure_ok_inv {α : Type} {a l : α} (h : (pure a : Except PyErr α) = .ok l) :
    a = l := by
  simpa [pure, Except.pure] using h

theorem rows_pred_of_pure {P : BetRow → Prop} {x l : List BetRow}
    (h : (pure x : Except PyErr (List BetRow)) = .ok l) (hx : ∀ r ∈ x, P r) :
    ∀ r ∈ l, P r := by
  have := pure_ok_inv h
  subst this
  exact hx

theorem catchRows_pred {P : BetRow → Prop} {e : Except PyErr (List BetRow)}
    (h : ∀ l, e = .ok l → ∀ r ∈ l, P r) : ∀ r ∈ catchRows e, P r := by
  cases e with
  | ok l => exact h l rfl
  | error _ => intro r hr; cases hr

theorem fullML_market {betC ml meta pin_data : Value} {bk ak nk sel : String}
    {l : List BetRow} (h : fullML betC ml meta pin_data bk ak nk sel = .ok l) :
    ∀ r ∈ l, r.market = "Moneyline" := by
  unfold fullML at h
  repeat
    any_goals
      first
      | (obtain ⟨_, _, h⟩ := bind_ok_inv h)
      | (split at h)
  all_goals
    first
    | (exact rows_pred_of_pure h (by intro r hr; simp at hr; subst hr; rfl))
    | (exact rows_pred_of_pure h (by intro r hr; simp at hr))

theorem spreadHomeTry_market {s psp meta pin_data line bet_line : Value}
    {l : List BetRow} (h : spreadHomeTry s psp meta pin_data line bet_line = .ok l) :
    ∀ r ∈ l, r.market = "Spread" := by
  unfold spreadHomeTry at h
  repeat
    any_goals
      first
      | (obtain ⟨_, _, h⟩ := bind_ok_inv h)
      | (split at h)
  all_goals
    first
    | (exact rows_pred_of_pure h (by intro r hr; simp at hr; subst hr; rfl))
    | (exact rows_pred_of_pure h (by intro r hr; simp at hr))

theorem spreadAwayTry_market {s psp meta pin_data line bet_line : Value}
    {l : List BetRow} (h : spreadAwayTry s psp meta pin_data line bet_line = .ok l) :
    ∀ r ∈ l, r.market = "Spread" := by
  unfold spreadAwayTry at h
  repeat
    any_goals
      first
      | (obtain ⟨_, _, h⟩ := bind_ok_inv h)
      | (split at h)
  all_goals
    first
    | (exact rows_pred_of_pure h (by intro r hr; simp at hr; subst hr; rfl))
    | (exact rows_pred_of_pure h (by intro r hr; simp at hr))

theorem spreadSideLoop_pred {P : BetRow → Prop}
    {tb : Value → Value → Except PyErr (List BetRow)}
    (htb : ∀ s bl l', tb s bl = .ok l' → ∀ r ∈ l', P r) :
    ∀ items l, spreadSideLoop tb items = .ok l → ∀ r ∈ l, P r := by
  intro items
  induction items with
  | nil =>
    intro l h
    have hl : l = [] := by simpa [spreadSideLoop] using h
    subst hl
    intro r hr
    cases hr
  | cons s rest ih =>
    intro l h
    unfold spreadSideLoop at h
    obtain ⟨bl, _, h⟩ := bind_ok_inv h
    obtain ⟨more, hmore, h⟩ := bind_ok_inv h
    have := pure_ok_inv h
    subst this
    intro r hr
    rcases List.mem_append.mp hr with hl | hr2
    · exact catchRows_pred (fun l' hl' => htb s bl l' hl') r hl
    · exact ih more hmore r hr2

theorem fullSpreadLoop_market {betC meta pin_data : Value} :
    ∀ entries l, fullSpreadLoop betC meta pin_data entries = .ok l →
      ∀ r ∈ l, r.market = "Spread" := by
  intro entries
  induction entries with
  | nil =>
    intro l h
    have hl : l = [] := by simpa [fullSpreadLoop] using h
    subst hl
    intro r hr
    cases hr
  | cons e rest ih =>
    intro l h
    obtain ⟨key, psp⟩ := e
    unfold fullSpreadLoop at h
    obtain ⟨line, _, h⟩ := bind_ok_inv h
    obtain ⟨hs, _, h⟩ := bind_ok_inv h
    obtain ⟨homeItems, _, h⟩ := bind_ok_inv h
    obtain ⟨homeRows, hhome, h⟩ := bind_ok_inv h
    obtain ⟨as', _, h⟩ := bind_ok_inv h
    obtain ⟨awayItems, _, h⟩ := bind_ok_inv h
    obtain ⟨awayRows, haway, h⟩ := bind_ok_inv h
    obtain ⟨more, hmore, h⟩ := bind_ok_inv h
    have := pure_ok_inv h
    subst this
    intro r hr
    rcases List.mem_append.mp hr with hr1 | hr2
    · rcases List.mem_append.mp hr1 with hr3 | hr4
      · exact spreadSideLoop_pred
          (fun s bl l' h' => spreadHomeTry_market h') homeItems homeRows hhome r hr3
      · exact spreadSideLoop_pred
          (fun s bl l' h' => spreadAwayTry_market h') awayItems awayRows haway r hr4
    · exact ih more hmore r hr2

theorem fullSpreadRows_market {betC full_game meta pin_data : Value}
    {l : List BetRow} (h : fullSpreadRows betC full_game meta pin_data = .ok l) :
    ∀ r ∈ l, r.market = "Spread" := by
  unfold fullSpreadRows at h
  obtain ⟨ps, _, h⟩ := bind_ok_inv h
  exact fullSpreadLoop_market _ _ h

/-- Invariant carried by the totals scan: every recorded best row is a
Total row. -/
def totStateOK (st : TotState) : Prop :=
  (∀ row ev, st.best_over = some (row, ev) → row.market = "Total") ∧
  (∀ row ev, st.best_under = some (row, ev) → row.market = "Total")

theorem totalOverHalf_pred {meta pin_data over_odds : Value} {pq : ℚ}
    {ptot : Value} {st st' : TotState}
    (h : totalOverHalf meta pin_data over_odds pq ptot st = .ok st')
    (hst : totStateOK st) : totStateOK st' := by
  unfold totalOverHalf at h
  repeat
    any_goals
      first
      | (obtain ⟨_, _, h⟩ := bind_ok_inv h)
      | (split at h)
      | (dsimp only [] at h)
  all_goals
    (have heq := pure_ok_inv h
     subst heq)
  all_goals
    first
    | exact hst
    | (refine ⟨?_, hst.2⟩
       intro row ev hrow
       simp only [Option.some.injEq, Prod.mk.injEq] at hrow
       rw [← hrow.1])

theorem totalUnderHalf_pred {meta pin_data under_odds : Value} {pq : ℚ}
    {ptot : Value} {st st' : TotState}
    (h : totalUnderHalf meta pin_data under_odds pq ptot st = .ok st')
    (hst : totStateOK st) : totStateOK st' := by
  unfold totalUnderHalf at h
  repeat
    any_goals
      first
      | (obtain ⟨_, _, h⟩ := bind_ok_inv h)
      | (split at h)
      | (dsimp only [] at h)
  all_goals
    (have heq := pure_ok_inv h
     subst heq)
  all_goals
    first
    | exact hst
    | (refine ⟨hst.1, ?_⟩
       intro row ev hrow
       simp only [Option.some.injEq, Prod.mk.injEq] at hrow
       rw [← hrow.1])

theorem totalStep_pred {meta pin_data : Value} {bck_line : Option ℚ}
    {over_odds under_odds ptot : Value} {st st' : TotState}
    (h : totalStep meta pin_data bck_line over_odds under_odds ptot st = .ok st')
    (hst : totStateOK st) : totStateOK st' := by
  unfold totalStep at h
  obtain ⟨pts, _, h⟩ := bind_ok_inv h
  dsimp only [] at h
  split at h
  · next bq pq =>
    split at h
    · obtain ⟨stA, hA, h⟩ := bind_ok_inv h
      exact totalUnderHalf_pred h (totalOverHalf_pred hA hst)
    · have := pure_ok_inv h
      subst this
      exact hst
  · have := pure_ok_inv h
    subst this
    exact hst

theorem totalFold_pred {meta pin_data : Value} {bck_line : Option ℚ}
    {over_odds under_odds : Value} :
    ∀ entries st st',
      totalFold meta pin_data bck_line over_odds under_odds entries st = .ok st' →
      totStateOK st → totStateOK st' := by
  intro entries
  induction entries with
  | nil =>
    intro st st' h hst
    have : st = st' := by simpa [totalFold, pure, Except.pure] using h
    subst this
    exact hst
  | cons e rest ih =>
    intro st st' h hst
    obtain ⟨key, ptot⟩ := e
    unfold totalFold at h
    obtain ⟨st1, h1, h⟩ := bind_ok_inv h
    exact ih st1 st' h (totalStep_pred h1 hst)

theorem fullTotalRows_market {betC full_game meta pin_data : Value}
    {l : List BetRow} (h : fullTotalRows betC full_game meta pin_data = .ok l) :
    ∀ r ∈ l, r.market = "Total" := by
  unfold fullTotalRows at h
  obtain ⟨pt, _, h⟩ := bind_ok_inv h
  obtain ⟨gtl, _, h⟩ := bind_ok_inv h
  split at h
  · obtain ⟨ov, _, h⟩ := bind_ok_inv h
    obtain ⟨un, _, h⟩ := bind_ok_inv h
    obtain ⟨st, hst, h⟩ := bind_ok_inv h
    have hok : totStateOK st :=
      totalFold_pred _ _ _ hst
        ⟨fun row ev h' => Option.noConfusion h', fun row ev h' => Option.noConfusion h'⟩
    have := pure_ok_inv h
    subst this
    intro r hr
    rcases List.mem_append.mp hr with h1 | h2
    · revert h1
      split
      · next row ev heq =>
        intro h1
        simp only [List.mem_singleton] at h1
        subst h1
        exact hok.1 _ _ heq
      · intro h1; cases h1
    · revert h2
      split
      · next row ev heq =>
        intro h2
        simp only [List.mem_singleton] at h2
        subst h2
        exact hok.2 _ _ heq
      · intro h2; cases h2
  · have := pure_ok_inv h
    subst this
    intro r hr
    cases hr

theorem fullGameRows_market {betC full_game pin_data : Value}
    {l : List BetRow} (h : fullGameRows betC full_game pin_data = .ok l) :
    ∀ r ∈ l, r.market = "Moneyline" ∨ r.market = "Spread" ∨ r.market = "Total" := by
  unfold fullGameRows at h
  obtain ⟨ml0, _, h⟩ := bind_ok_inv h
  obtain ⟨metaRaw, _, h⟩ := bind_ok_inv h
  obtain ⟨r1, h1, h⟩ := bind_ok_inv h
  obtain ⟨r2, h2, h⟩ := bind_ok_inv h
  obtain ⟨r3, h3, h⟩ := bind_ok_inv h
  obtain ⟨rs, hs, h⟩ := bind_ok_inv h
  obtain ⟨rt, ht, h⟩ := bind_ok_inv h
  have := pure_ok_inv h
  subst this
  intro r hr
  rcases List.mem_append.mp hr with hA | hT
  · rcases List.mem_append.mp hA with hB | hS
    · rcases List.mem_append.mp hB with hC | hD
      · rcases List.mem_append.mp hC with hE | hF
        · exact Or.inl (fullML_market h1 r hE)
        · exact Or.inl (fullML_market h2 r hF)
      · exact Or.inl (fullML_market h3 r hD)
    · exact Or.inr (Or.inl (fullSpreadRows_market hs r hS))
  · exact Or.inr (Or.inr (fullTotalRows_market ht r hT))

theorem oneHML_market {bet_1h pin_ml meta home_team away_team : Value}
    {bk ak nk sel : String} {l : List BetRow}
    (h : oneHML bet_1h pin_ml meta home_team away_team bk ak nk sel = .ok l) :
    ∀ r ∈ l, r.market = "1H Moneyline" := by
  unfold oneHML at h
  repeat
    any_goals
      first
      | (obtain ⟨_, _, h⟩ := bind_ok_inv h)
      | (split at h)
      | (dsimp only [] at h)
  all_goals
    first
    | (exact rows_pred_of_pure h (by intro r hr; simp at hr; subst hr; rfl))
    | (exact rows_pred_of_pure h (by intro r hr; simp at hr))

theorem oneHSpreadHomeTry_market
    {spread psp meta home_team away_team line bet_line : Value}
    {l : List BetRow}
    (h : oneHSpreadHomeTry spread psp meta home_team away_team line bet_line
      = .ok l) :
    ∀ r ∈ l, r.market = "1H Spread" := by
  unfold oneHSpreadHomeTry at h
  repeat
    any_goals
      first
      | (obtain ⟨_, _, h⟩ := bind_ok_inv h)
      | (split at h)
      | (dsimp only [] at h)
  all_goals
    first
    | (exact rows_pred_of_pure h (by intro r hr; simp at hr; subst hr; rfl))
    | (exact rows_pred_of_pure h (by intro r hr; simp at hr))

theorem oneHSpreadAwayTry_market
    {spread psp meta home_team away_team line bet_line : Value}
    {l : List BetRow}
    (h : oneHSpreadAwayTry spread psp meta home_team away_team line bet_line
      = .ok l) :
    ∀ r ∈ l, r.market = "1H Spread" := by
  unfold oneHSpreadAwayTry at h
  repeat
    any_goals
      first
      | (obtain ⟨_, _, h⟩ := bind_ok_inv h)
      | (split at h)
      | (dsimp only [] at h)
  all_goals
    first
    | (exact rows_pred_of_pure h (by intro r hr; simp at hr; subst hr; rfl))
    | (exact rows_pred_of_pure h (by intro r hr; simp at hr))

theorem oneHSpreadPinLoop_pred {P : BetRow → Prop}
    {tb : Value → Value → Value → Value → Except PyErr (List BetRow)}
    (htb : ∀ s psp line bl l', tb s psp line bl = .ok l' → ∀ r ∈ l', P r) :
    ∀ spread bet_line entries l,
      oneHSpreadPinLoop tb spread bet_line entries = .ok l → ∀ r ∈ l, P r := by
  intro spread bet_line entries
  induction entries with
  | nil =>
    intro l h
    have hl : l = [] := by simpa [oneHSpreadPinLoop] using h
    subst hl
    intro r hr
    cases hr
  | cons e rest ih =>
    intro l h
    obtain ⟨key, psp⟩ := e
    unfold oneHSpreadPinLoop at h
    obtain ⟨line, _, h⟩ := bind_ok_inv h
    obtain ⟨more, hmore, h⟩ := bind_ok_inv h
    have := pure_ok_inv h
    subst this
    intro r hr
    rcases List.mem_append.mp hr with h1 | h2
    · exact catchRows_pred (fun l' hl' => htb spread psp line bet_line l' hl') r h1
    · exact ih more hmore r h2

theorem oneHSpreadLoop_pred {P : BetRow → Prop}
    {tb : Value → Value → Value → Value → Except PyErr (List BetRow)}
    {psObj : Value}
    (htb : ∀ s psp line bl l', tb s psp line bl = .ok l' → ∀ r ∈ l', P r) :
    ∀ items l, oneHSpreadLoop tb psObj items = .ok l → ∀ r ∈ l, P r := by
  intro items
  induction items with
  | nil =>
    intro l h
    have hl : l = [] := by simpa [oneHSpreadLoop] using h
    subst hl
    intro r hr
    cases hr
  | cons spread rest ih =>
    intro l h
    unfold oneHSpreadLoop at h
    obtain ⟨bet_line, _, h⟩ := bind_ok_inv h
    obtain ⟨entries, _, h⟩ := bind_ok_inv h
    obtain ⟨rows, hrows, h⟩ := bind_ok_inv h
    obtain ⟨more, hmore, h⟩ := bind_ok_inv h
    have := pure_ok_inv h
    subst this
    intro r hr
    rcases List.mem_append.mp hr with h1 | h2
    · exact oneHSpreadPinLoop_pred htb spread bet_line entries rows hrows r h1
    · exact ih more hmore r h2

theorem oneHTotalTry_market {isOver : Bool}
    {total ptot meta home_team away_team : Value} {pin_line : Option ℚ}
    {bet_line : Value} {l : List BetRow}
    (h : oneHTotalTry isOver total ptot meta home_team away_team pin_line bet_line
      = .ok l) :
    ∀ r ∈ l, r.market = "1H Total" := by
  unfold oneHTotalTry at h
  repeat
    any_goals
      first
      | (obtain ⟨_, _, h⟩ := bind_ok_inv h)
      | (split at h)
      | (dsimp only [] at h)
  all_goals
    first
    | (exact rows_pred_of_pure h (by intro r hr; simp at hr; subst hr; rfl))
    | (exact rows_pred_of_pure h (by intro r hr; simp at hr))

theorem oneHTotalPinLoop_pred {isOver : Bool}
    {meta home_team away_team total bet_line : Value} :
    ∀ entries l,
      oneHTotalPinLoop isOver meta home_team away_team total bet_line entries
        = .ok l →
      ∀ r ∈ l, r.market = "1H Total" := by
  intro entries
  induction entries with
  | nil =>
    intro l h
    have hl : l = [] := by simpa [oneHTotalPinLoop] using h
    subst hl
    intro r hr
    cases hr
  | cons e rest ih =>
    intro l h
    obtain ⟨key, ptot⟩ := e
    unfold oneHTotalPinLoop at h
    obtain ⟨pts, _, h⟩ := bind_ok_inv h
    obtain ⟨more, hmore, h⟩ := bind_ok_inv h
    have := pure_ok_inv h
    subst this
    intro r hr
    rcases List.mem_append.mp hr with h1 | h2
    · exact catchRows_pred (fun l' hl' => oneHTotalTry_market hl') r h1
    · exact ih more hmore r h2

theorem oneHTotalLoop_pred {isOver : Bool}
    {meta home_team away_team ptObj : Value} :
    ∀ items l, oneHTotalLoop isOver meta home_team away_team ptObj items = .ok l →
      ∀ r ∈ l, r.market = "1H Total" := by
  intro items
  induction items with
  | nil =>
    intro l h
    have hl : l = [] := by simpa [oneHTotalLoop] using h
    subst hl
    intro r hr
    cases hr
  | cons total rest ih =>
    intro l h
    unfold oneHTotalLoop at h
    obtain ⟨bet_line, _, h⟩ := bind_ok_inv h
    obtain ⟨entries, _, h⟩ := bind_ok_inv h
    obtain ⟨rows, hrows, h⟩ := bind_ok_inv h
    obtain ⟨more, hmore, h⟩ := bind_ok_inv h
    have := pure_ok_inv h
    subst this
    intro r hr
    rcases List.mem_append.mp hr with h1 | h2
    · exact oneHTotalPinLoop_pred entries rows hrows r h1
    · exact ih more hmore r h2

theorem analyze1HExc_market {bet_1h pinnacle_1h pin_data : Value}
    {l : List BetRow} (h : analyze1HExc bet_1h pinnacle_1h pin_data = .ok l) :
    ∀ r ∈ l,
      r.market = "1H Moneyline" ∨ r.market = "1H Spread" ∨ r.market = "1H Total" := by
  unfold analyze1HExc at h
  obtain ⟨home_team, _, h⟩ := bind_ok_inv h
  obtain ⟨away_team, _, h⟩ := bind_ok_inv h
  obtain ⟨pin_ml, _, h⟩ := bind_ok_inv h
  obtain ⟨meta, _, h⟩ := bind_ok_inv h
  obtain ⟨r1, h1, h⟩ := bind_ok_inv h
  obtain ⟨r2, h2, h⟩ := bind_ok_inv h
  obtain ⟨ps, _, h⟩ := bind_ok_inv h
  obtain ⟨hs, _, h⟩ := bind_ok_inv h
  obtain ⟨homeItems, _, h⟩ := bind_ok_inv h
  obtain ⟨rs1, hrs1, h⟩ := bind_ok_inv h
  obtain ⟨as', _, h⟩ := bind_ok_inv h
  obtain ⟨awayItems, _, h⟩ := bind_ok_inv h
  obtain ⟨rs2, hrs2, h⟩ := bind_ok_inv h
  obtain ⟨pt, _, h⟩ := bind_ok_inv h
  obtain ⟨hts, _, h⟩ := bind_ok_inv h
  obtain ⟨homeTotals, _, h⟩ := bind_ok_inv h
  obtain ⟨rt1, hrt1, h⟩ := bind_ok_inv h
  obtain ⟨ats, _, h⟩ := bind_ok_inv h
  obtain ⟨awayTotals, _, h⟩ := bind_ok_inv h
  obtain ⟨rt2, hrt2, h⟩ := bind_ok_inv h
  have := pure_ok_inv h
  subst this
  intro r hr
  rcases List.mem_append.mp hr with hA | hT2
  · rcases List.mem_append.mp hA with hB | hT1
    · rcases List.mem_append.mp hB with hC | hS2
      · rcases List.mem_append.mp hC with hD | hS1
        · rcases List.mem_append.mp hD with hM1 | hM2
          · exact Or.inl (oneHML_market h1 r hM1)
          · exact Or.inl (oneHML_market h2 r hM2)
        · exact Or.inr (Or.inl (oneHSpreadLoop_pred
            (fun s psp line bl l' h' => oneHSpreadHomeTry_market h')
            homeItems rs1 hrs1 r hS1))
      · exact Or.inr (Or.inl (oneHSpreadLoop_pred
          (fun s psp line bl l' h' => oneHSpreadAwayTry_market h')
          awayItems rs2 hrs2 r hS2))
    · exact Or.inr (Or.inr (oneHTotalLoop_pred homeTotals rt1 hrt1 r hT1))
  · exact Or.inr (Or.inr (oneHTotalLoop_pred awayTotals rt2 hrt2 r hT2))

theorem analyze1H_market (bet_1h pinnacle_1h pin_data : Value) :
    ∀ r ∈ analyze1H bet_1h pinnacle_1h pin_data,
      r.market = "1H Moneyline" ∨ r.market = "1H Spread" ∨ r.market = "1H Total" :=
  catchRows_pred (fun _ hl => analyze1HExc_market hl)

/-- **C1** (Period separation): every row emitted by `analyze_markets_for_ev`
is computed from one period on each side and those periods agree.  A row
whose market does not carry the `1H` prefix is produced by the full-game
section, which reads only the reference event's period-0 object (keys
`num_0`/`0` of `periods`); a row whose market carries the `1H` prefix is
produced by `_analyze_1h_markets_for_ev` on the secondary game's `1H_data`
and the reference event's period-1 object (keys `num_1`/`1`); so no row ever
pairs a secondary-book selection with a reference fair price of a different
period. -/
theorem c1_period_separation (bet_data pinnacle_data : Value)
    (rows : List BetRow)
    (h : analyze_markets_for_ev bet_data pinnacle_data = .ok rows)
    (r : BetRow) (hr : r ∈ rows) :
    ∃ pin_data periods p0a p0b,
      pySub (copyOf pinnacle_data) "data" = .ok pin_data ∧
      pyGetD pin_data "periods" (.vdict []) = .ok periods ∧
      pyGetD periods "num_0" .vnone = .ok p0a ∧
      pyGetD periods "0" .vnone = .ok p0b ∧
      ((startsWithL r.market.data ("1H".data) = false ∧
        ∃ fgRows,
          fullGameRows (copyOf bet_data) (pyOr p0a p0b) pin_data = .ok fgRows ∧
          r ∈ fgRows) ∨
       (startsWithL r.market.data ("1H".data) = true ∧
        ∃ b1 p1a p1b,
          pySub (copyOf bet_data) "1H_data" = .ok b1 ∧
          pyGetD periods "num_1" .vnone = .ok p1a ∧
          pyGetD periods "1" .vnone = .ok p1b ∧
          r ∈ analyze1H b1 (pyOr p1a p1b) pin_data)) := by
  unfold analyze_markets_for_ev at h
  dsimp only [] at h
  split at h
  · have := pure_ok_inv h; subst this; cases hr
  · split at h
    · have := pure_ok_inv h; subst this; cases hr
    · split at h
      · have := pure_ok_inv h; subst this; cases hr
      · obtain ⟨d, _, h⟩ := bind_ok_inv h
        split at h
        · have := pure_ok_inv h; subst this; cases hr
        · obtain ⟨d2, _, h⟩ := bind_ok_inv h
          split at h
          · have := pure_ok_inv h; subst this; cases hr
          · have hcr := pure_ok_inv h
            subst hcr
            cases htb : tryBody (copyOf bet_data) (copyOf pinnacle_data) with
            | error e =>
              rw [htb] at hr
              simp [catchRows] at hr
            | ok tl =>
              rw [htb] at hr
              simp only [catchRows] at hr
              unfold tryBody at htb
              obtain ⟨pin_data, hpd, htb⟩ := bind_ok_inv htb
              split at htb
              · have := pure_ok_inv htb; subst this; cases hr
              · split at htb
                · have := pure_ok_inv htb; subst this; cases hr
                · obtain ⟨periods, hper, htb⟩ := bind_ok_inv htb
                  split at htb
                  · have := pure_ok_inv htb; subst this; cases hr
                  · split at htb
                    · have := pure_ok_inv htb; subst this; cases hr
                    · obtain ⟨p0a, hp0a, htb⟩ := bind_ok_inv htb
                      obtain ⟨p0b, hp0b, htb⟩ := bind_ok_inv htb
                      dsimp only [] at htb
                      split at htb
                      · have := pure_ok_inv htb; subst this; cases hr
                      · split at htb
                        · have := pure_ok_inv htb; subst this; cases hr
                        · split at htb
                          · have := pure_ok_inv htb; subst this; cases hr
                          · obtain ⟨fg, hfg, htb⟩ := bind_ok_inv htb
                            obtain ⟨h1, hh1, htb⟩ := bind_ok_inv htb
                            refine ⟨pin_data, periods, p0a, p0b,
                              hpd, hper, hp0a, hp0b, ?_⟩
                            split at htb
                            · obtain ⟨p1a, hp1a, htb⟩ := bind_ok_inv htb
                              obtain ⟨p1b, hp1b, htb⟩ := bind_ok_inv htb
                              split at htb
                              · obtain ⟨b1, hb1, htb⟩ := bind_ok_inv htb
                                obtain ⟨y, hy, htb⟩ := bind_ok_inv htb
                                have hyv := pure_ok_inv hy
                                subst hyv
                                have := pure_ok_inv htb
                                subst this
                                rcases List.mem_append.mp hr with hF | hO
                                · left
                                  have hm := fullGameRows_market hfg r hF
                                  refine ⟨?_, fg, hfg, hF⟩
                                  rcases hm with hm | hm | hm <;> rw [hm] <;> decide
                                · right
                                  have hm := analyze1H_market b1 (pyOr p1a p1b)
                                    pin_data r hO
                                  refine ⟨?_, b1, p1a, p1b, hb1, hp1a, hp1b, hO⟩
                                  rcases hm with hm | hm | hm <;> rw [hm] <;> decide
                              · obtain ⟨y, hy, htb⟩ := bind_ok_inv htb
                                have hyv := pure_ok_inv hy
                                subst hyv
                                have := pure_ok_inv htb
                                subst this
                                rcases List.mem_append.mp hr with hF | hO
                                · left
                                  have hm := fullGameRows_market hfg r hF
                                  refine ⟨?_, fg, hfg, hF⟩
                                  rcases hm with hm | hm | hm <;> rw [hm] <;> decide
                                · cases hO
                            · obtain ⟨y, hy, htb⟩ := bind_ok_inv htb
                              have hyv := pure_ok_inv hy
                              subst hyv
                              have := pure_ok_inv htb
                              subst this
                              rcases List.mem_append.mp hr with hF | hO
                              · left
                                have hm := fullGameRows_market hfg r hF
                                refine ⟨?_, fg, hfg, hF⟩
                                rcases hm with hm | hm | hm <;> rw [hm] <;> decide
                              · cases hO

/-- Witness for the period-separation theorem: on the sample inputs the
engine emits exactly the sample Moneyline row, and the theorem places that
row in the full-game (period-0) section. -/
theorem c1_period_separation_witness :
    analyze_markets_for_ev c1SampleBet c1SamplePin = .ok [c1SampleRow] ∧
    (∃ pin_data periods p0a p0b,
      pySub (copyOf c1SamplePin) "data" = .ok pin_data ∧
      pyGetD pin_data "periods" (.vdict []) = .ok periods ∧
      pyGetD periods "num_0" .vnone = .ok p0a ∧
      pyGetD periods "0" .vnone = .ok p0b ∧
      ((startsWithL c1SampleRow.market.data ("1H".data) = false ∧
        ∃ fgRows,
          fullGameRows (copyOf c1SampleBet) (pyOr p0a p0b) pin_data = .ok fgRows ∧
          c1SampleRow ∈ fgRows) ∨
       (startsWithL c1SampleRow.market.data ("1H".data) = true ∧
        ∃ b1 p1a p1b,
          pySub (copyOf c1SampleBet) "1H_data" = .ok b1 ∧
          pyGetD periods "num_1" .vnone = .ok p1a ∧
          pyGetD periods "1" .vnone = .ok p1b ∧
          c1SampleRow ∈ analyze1H b1 (pyOr p1a p1b) pin_data))) :=
  ⟨rfl, c1_period_separation c1SampleBet c1SamplePin [c1SampleRow] rfl c1SampleRow
    (List.mem_singleton.mpr rfl)⟩

/-- Counterexample to C5: the spread pairing uses `math.isclose(a, b,
abs_tol=0.01)`, whose default relative tolerance 1e-9 is not zero, so at
large magnitudes lines further apart than 0.01 still pair.  With the only
secondary home line 10^8 and the only reference hdp 10^8 + 1/20 the engine
emits a Spread/Home row although the two differ by 1/20 > 0.01. -/
theorem c5_spread_tolerance_counterexample :
    analyze_markets_for_ev c5Bet c5Pin = .ok [c5Row] ∧
    c5Row.market = "Spread" ∧ c5Row.selection = "Home" ∧
    pyIsClose (100000000 : ℚ) (100000000 + 1/20) = true ∧
    ¬(|(100000000 : ℚ) - (100000000 + 1/20)| ≤ 1/100) :=
  ⟨rfl, rfl, rfl, by decide, by decide⟩

/-- **C5** (amended, Spread line symmetry): a Spread/Home row (full-game or
1H) is emitted only when the secondary home line and the paired reference
hdp are `math.isclose` with abs_tol 0.01 — that is, within
max(1e-9 · max(|a|,|b|), 0.01), not plainly within 0.01 — and a Spread/Away
row only when the secondary away line is that close to the negated hdp; a
guarded body whose closeness test fails emits no row. -/
theorem c5_spread_pairing_amended :
    (∀ s psp meta pin_data line bet_line l,
      spreadHomeTry s psp meta pin_data line bet_line = .ok l → l ≠ [] →
      ∃ bq lq, floatV bet_line = .ok bq ∧ floatV line = .ok lq ∧
        pyIsClose bq lq = true) ∧
    (∀ s psp meta pin_data line bet_line l,
      spreadAwayTry s psp meta pin_data line bet_line = .ok l → l ≠ [] →
      ∃ bq lq, floatV bet_line = .ok bq ∧ floatV line = .ok lq ∧
        pyIsClose bq (-lq) = true) ∧
    (∀ spread psp meta home_team away_team line bet_line l,
      oneHSpreadHomeTry spread psp meta home_team away_team line bet_line
        = .ok l → l ≠ [] →
      ∃ bq lq, floatV bet_line = .ok bq ∧ floatV line = .ok lq ∧
        pyIsClose bq lq = true) ∧
    (∀ spread psp meta home_team away_team line bet_line l,
      oneHSpreadAwayTry spread psp meta home_team away_team line bet_line
        = .ok l → l ≠ [] →
      ∃ bq lq, floatV bet_line = .ok bq ∧ floatV line = .ok lq ∧
        pyIsClose bq (-lq) = true) ∧
    (∀ a b : ℚ, pyIsClose a b = true ↔
      |a - b| ≤ max (1/1000000000 * max |a| |b|) (1/100)) := by
  refine ⟨?_, ?_, ?_, ?_, ?_⟩
  · intro s psp meta pin_data line bet_line l h hne
    unfold spreadHomeTry at h
    split at h
    · exact absurd (pure_ok_inv h).symm hne
    · obtain ⟨bq, hbq, h⟩ := bind_ok_inv h
      obtain ⟨lq, hlq, h⟩ := bind_ok_inv h
      split at h
      · next hclose => exact ⟨bq, lq, hbq, hlq, hclose⟩
      · exact absurd (pure_ok_inv h).symm hne
  · intro s psp meta pin_data line bet_line l h hne
    unfold spreadAwayTry at h
    split at h
    · exact absurd (pure_ok_inv h).symm hne
    · obtain ⟨bq, hbq, h⟩ := bind_ok_inv h
      obtain ⟨lq, hlq, h⟩ := bind_ok_inv h
      split at h
      · next hclose => exact ⟨bq, lq, hbq, hlq, hclose⟩
      · exact absurd (pure_ok_inv h).symm hne
  · intro spread psp meta home_team away_team line bet_line l h hne
    unfold oneHSpreadHomeTry at h
    split at h
    · exact absurd (pure_ok_inv h).symm hne
    · obtain ⟨bq, hbq, h⟩ := bind_ok_inv h
      obtain ⟨lq, hlq, h⟩ := bind_ok_inv h
      split at h
      · next hclose => exact ⟨bq, lq, hbq, hlq, hclose⟩
      · exact absurd (pure_ok_inv h).symm hne
  · intro spread psp meta home_team away_team line bet_line l h hne
    unfold oneHSpreadAwayTry at h
    split at h
    · exact absurd (pure_ok_inv h).symm hne
    · obtain ⟨bq, hbq, h⟩ := bind_ok_inv h
      obtain ⟨lq, hlq, h⟩ := bind_ok_inv h
      split at h
      · next hclose => exact ⟨bq, lq, hbq, hlq, hclose⟩
      · exact absurd (pure_ok_inv h).symm hne
  · intro a b
    simp [pyIsClose]

/-- Witness for the amended spread-pairing theorem at a concrete pairing:
lines 3/2 against hdp 3/2 emit a home row and the theorem recovers the
closeness of the two float values. -/
theorem c5_spread_pairing_amended_witness :
    spreadHomeTry c5S c5Psp (.vdict []) c5PinD (.vnum (3/2)) (.vnum (3/2))
      = .ok [c5HomeRow] ∧
    (∃ bq lq, floatV (.vnum (3/2)) = .ok bq ∧ floatV (.vnum (3/2)) = .ok lq ∧
      pyIsClose bq lq = true) :=
  ⟨rfl, c5_spread_pairing_amended.1 c5S c5Psp (.vdict []) c5PinD (.vnum (3/2))
    (.vnum (3/2)) [c5HomeRow] rfl (List.cons_ne_nil _ _)⟩

end EvEngineTheorems

section MatcherTheorems

theorem atomEq_refl {a : Value} (h : (hkey a).isSome = true) :
    atomEq a a = true := by
  simp [atomEq, h]

theorem setMemB_cons {y x : Value} {s : List Value} (h : setMemB y s = true) :
    setMemB y (x :: s) = true := by
  simp only [setMemB, List.any_eq_true] at h ⊢
  obtain ⟨z, hz, he⟩ := h
  exact ⟨z, List.mem_cons_of_mem _ hz, he⟩

theorem setMemB_cons_self {x : Value} {s : List Value}
    (h : (hkey x).isSome = true) : setMemB x (x :: s) = true := by
  simp only [setMemB, List.any_eq_true]
  exact ⟨x, List.mem_cons_self _ _, atomEq_refl h⟩

theorem atomEq_false_of_mem {x n : Value} {s : List Value}
    (hx : setMemB x s = true) (hn : setMemB n s = false) :
    atomEq x n = false := by
  cases he : atomEq x n
  · rfl
  · exfalso
    simp only [setMemB, List.any_eq_true] at hx
    obtain ⟨y, hy, hxy⟩ := hx
    simp only [atomEq, Bool.and_eq_true, decide_eq_true_eq] at he hxy
    have hny : atomEq n y = true := by
      simp only [atomEq, Bool.and_eq_true, decide_eq_true_eq]
      refine ⟨?_, by rw [← he.2, hxy.2]⟩
      rw [← he.2]
      exact he.1
    have hmem : setMemB n s = true := by
      simp only [setMemB, List.any_eq_true]
      exact ⟨y, hy, hny⟩
    rw [hmem] at hn
    exact Bool.noConfusion hn

theorem setMem_ok_inv {x : Value} {s : List Value} {b : Bool}
    (h : setMem x s = .ok b) :
    (hkey x).isSome = true ∧ setMemB x s = b := by
  unfold setMem at h
  split at h
  · next hh => exact ⟨hh, by simpa using h⟩
  · exact Except.noConfusion h

theorem setAdd_ok_inv {x : Value} {s s2 : List Value}
    (h : setAdd x s = .ok s2) :
    (hkey x).isSome = true ∧
      s2 = (if setMemB x s then s else x :: s) := by
  unfold setAdd at h
  split at h
  · next hh => exact ⟨hh, by simpa using h.symm⟩
  · exact Except.noConfusion h

theorem pyGetD_of_pySub {d : Value} {k : String} {v dflt : Value}
    (h : pySub d k = .ok v) : pyGetD d k dflt = .ok v := by
  cases d with
  | vdict xs =>
    simp only [pySub] at h
    cases hl : dlookup xs k with
    | none => rw [hl] at h; exact Except.noConfusion h
    | some x =>
      rw [hl] at h
      simp only [pyGetD, hl, Option.getD_some]
      exact h
  | vnone => exact Except.noConfusion h
  | vbool b2 => exact Except.noConfusion h
  | vnum q => exact Except.noConfusion h
  | vstr s2 => exact Except.noConfusion h
  | vlist l2 => exact Except.noConfusion h

theorem bckId_eq {g h a i : Value}
    (hh : pyGetD g "betbck_site_home_team" (.vstr "") = .ok h)
    (ha : pyGetD g "betbck_site_away_team" (.vstr "") = .ok a)
    (hi : pyGetD g "betbck_game_id" (.vstr (pyStr h ++ "_" ++ pyStr a))
      = .ok i) :
    bckId g = .ok i := by
  simp [bckId, hh, ha, hi, Bind.bind, Except.bind]

/-- Provenance of a candidate produced by the loop: its event id was not
yet in the processed set. -/
def candOK (processed : List Value) (b : Value) : Prop :=
  ∃ eid, pyGetD b "event_id" .vnone = .ok eid ∧
    setMem eid processed = .ok false

theorem candLoop_inv {ctx : MatchCtx} {processed : List Value} {bg : Value}
    {nbh nba : String} :
    ∀ evs st res, candLoop ctx processed bg nbh nba evs st = .ok res →
      (∀ b, st.1 = some b → candOK processed b) →
      ∀ b, res.1 = some b → candOK processed b := by
  intro evs
  induction evs with
  | nil =>
    intro st res h hst
    have hsr : st = res := by simpa [candLoop] using h
    subst hsr
    exact hst
  | cons ev rest ih =>
    intro st res h hst
    unfold candLoop at h
    obtain ⟨eid, heid, h⟩ := bind_ok_inv h
    obtain ⟨mem, hmem, h⟩ := bind_ok_inv h
    cases mem with
    | true =>
      rw [if_pos rfl] at h
      exact ih st res h hst
    | false =>
      rw [if_neg (by simp)] at h
      have hnew : ∀ (sc : ℚ) (o : Option Bool) (b : Value),
          ((some ev : Option Value), sc, o).1 = some b →
          candOK processed b := by
        intro sc o b hb
        have hbe : ev = b := by simpa using hb
        subst hbe
        exact ⟨eid, heid, hmem⟩
      repeat
        any_goals
          first
          | (obtain ⟨_, _, h⟩ := bind_ok_inv h)
          | (split at h)
          | (dsimp only [] at h)
      all_goals
        first
        | exact ih _ _ h hst
        | exact ih _ _ h (hnew _ _)
        | (injection h with h2; subst h2; exact hnew _ _)

/-- The uniqueness invariant carried by the matcher's outer loop: every
recorded reference id sits in the processed set, recorded reference ids are
pairwise distinct, every recorded game's id sits in the matched set, and
recorded game ids are pairwise distinct. -/
def recsInv (processed matched : List Value) (recs : List MatchRec) : Prop :=
  (∀ r ∈ recs, setMemB r.pinnacle_event_id processed = true) ∧
  recs.Pairwise (fun a b =>
    atomEq a.pinnacle_event_id b.pinnacle_event_id = false) ∧
  (∀ r ∈ recs, ∃ i, bckId r.betbck_game = .ok i ∧ setMemB i matched = true) ∧
  recs.Pairwise (fun a b => ∀ i j, bckId a.betbck_game = .ok i →
    bckId b.betbck_game = .ok j → atomEq i j = false)

theorem matchLoop_inv {ctx : MatchCtx} {ebs : List (String × List Value)} :
    ∀ games st st2, matchLoop ctx ebs games st = .ok st2 →
      recsInv st.1 st.2.1 st.2.2 → recsInv st2.1 st2.2.1 st2.2.2 := by
  intro games
  induction games with
  | nil =>
    intro st st2 h hinv
    have hss : st = st2 := by simpa [matchLoop] using h
    subst hss
    exact hinv
  | cons bg rest ih =>
    intro st st2 h hinv
    obtain ⟨processed, matched, recs⟩ := st
    unfold matchLoop at h
    obtain ⟨idH, hidH, h⟩ := bind_ok_inv h
    obtain ⟨idA, hidA, h⟩ := bind_ok_inv h
    obtain ⟨bid, hbid, h⟩ := bind_ok_inv h
    obtain ⟨mem, hmem, h⟩ := bind_ok_inv h
    cases mem with
    | true =>
      rw [if_pos rfl] at h
      exact ih _ _ h hinv
    | false =>
      rw [if_neg (by simp)] at h
      obtain ⟨bhr, hbhr, h⟩ := bind_ok_inv h
      obtain ⟨bar, hbar, h⟩ := bind_ok_inv h
      obtain ⟨nbh, hnbh, h⟩ := bind_ok_inv h
      obtain ⟨nba, hnba, h⟩ := bind_ok_inv h
      split at h
      · exact ih _ _ h hinv
      · dsimp only [] at h
        obtain ⟨best, hbest, h⟩ := bind_ok_inv h
        obtain ⟨obm, score, orient⟩ := best
        cases obm with
        | none =>
          exact ih _ _ h hinv
        | some bm =>
          dsimp only [] at h
          split at h
          · obtain ⟨eid, heid, h⟩ := bind_ok_inv h
            obtain ⟨processed2, hproc2, h⟩ := bind_ok_inv h
            obtain ⟨bid2, hbid2, h⟩ := bind_ok_inv h
            obtain ⟨matched2, hmat2, h⟩ := bind_ok_inv h
            obtain ⟨phv, hphv, h⟩ := bind_ok_inv h
            obtain ⟨pav, hpav, h⟩ := bind_ok_inv h
            obtain ⟨neh, hneh, h⟩ := bind_ok_inv h
            obtain ⟨nea, hnea, h⟩ := bind_ok_inv h
            obtain ⟨bodds, hbodds, h⟩ := bind_ok_inv h
            obtain ⟨topml, htop, h⟩ := bind_ok_inv h
            obtain ⟨botml, hbot, h⟩ := bind_ok_inv h
            -- the two site-team reads repeat the id reads
            have hH : idH = bhr := by rw [hidH] at hbhr; simpa using hbhr
            have hA : idA = bar := by rw [hidA] at hbar; simpa using hbar
            subst hH
            subst hA
            -- hence the matched-set id equals the skip-check id
            have hb2 : bid2 = bid := by
              have htmp := hbid2
              rw [hbid] at htmp
              simpa using htmp.symm
            rw [hb2] at hbid2 hmat2
            -- the chosen candidate's id was not yet processed
            have hcand := candLoop_inv _ _ _ hbest
              (fun b hb => Option.noConfusion hb) bm rfl
            obtain ⟨eidG, heidG, hmemG⟩ := hcand
            have heq : eidG = eid := by
              have h2 := @pyGetD_of_pySub bm "event_id" eid Value.vnone heid
              rw [h2] at heidG
              simpa using heidG.symm
            rw [heq] at hmemG
            obtain ⟨hhashE, hmemE⟩ := setMem_ok_inv hmemG
            obtain ⟨_, hproc2eq⟩ := setAdd_ok_inv hproc2
            rw [hmemE] at hproc2eq
            rw [if_neg (by simp)] at hproc2eq
            obtain ⟨hhashB, hmemB⟩ := setMem_ok_inv hmem
            obtain ⟨_, hmat2eq⟩ := setAdd_ok_inv hmat2
            rw [hmemB] at hmat2eq
            rw [if_neg (by simp)] at hmat2eq
            have hbck : bckId bg = .ok bid := bckId_eq hbhr hbar hbid2
            refine ih _ _ h ⟨?_, ?_, ?_, ?_⟩
            · intro r hr
              rcases List.mem_append.mp hr with hro | hrn
              · rw [hproc2eq]
                exact setMemB_cons (hinv.1 r hro)
              · simp only [List.mem_singleton] at hrn
                subst hrn
                rw [hproc2eq]
                exact setMemB_cons_self hhashE
            · rw [List.pairwise_append]
              refine ⟨hinv.2.1, List.pairwise_singleton _ _, ?_⟩
              intro a ha b hb
              simp only [List.mem_singleton] at hb
              subst hb
              exact atomEq_false_of_mem (hinv.1 a ha) hmemE
            · intro r hr
              rcases List.mem_append.mp hr with hro | hrn
              · obtain ⟨i, hi, him⟩ := hinv.2.2.1 r hro
                refine ⟨i, hi, ?_⟩
                rw [hmat2eq]
                exact setMemB_cons him
              · simp only [List.mem_singleton] at hrn
                subst hrn
                refine ⟨bid, hbck, ?_⟩
                rw [hmat2eq]
                exact setMemB_cons_self hhashB
            · rw [List.pairwise_append]
              refine ⟨hinv.2.2.2, List.pairwise_singleton _ _, ?_⟩
              intro a ha b hb i j hi hj
              simp only [List.mem_singleton] at hb
              subst hb
              have hj2 : bckId bg = .ok j := hj
              rw [hbck] at hj2
              have hjb : bid = j := by simpa using hj2
              obtain ⟨i2, hi2, him2⟩ := hinv.2.2.1 a ha
              have hii : i2 = i := by rw [hi2] at hi; simpa using hi
              subst hii
              rw [← hjb]
              exact atomEq_false_of_mem him2 hmemB
          · exact ih _ _ h hinv

/-- **C7** (Match uniqueness): among the match records returned by one
invocation of `match_pinnacle_to_betbck`, the reference event ids are
pairwise distinct (under Python equality on hashable values) and the
secondary-game ids — key `betbck_game_id`, defaulting to the f-string of
the two site team fields — are pairwise distinct: each reference event id
and each secondary-game id occurs in at most one match record. -/
theorem c7_match_uniqueness (ctx : MatchCtx) (matched0 : List Value)
    (pinnacle_events : List Value) (betbck_data : Value)
    (recs : List MatchRec)
    (h : match_pinnacle_to_betbck ctx matched0 pinnacle_events betbck_data
      = .ok recs) :
    recs.Pairwise (fun a b =>
      atomEq a.pinnacle_event_id b.pinnacle_event_id = false) ∧
    recs.Pairwise (fun a b => ∀ i j, bckId a.betbck_game = .ok i →
      bckId b.betbck_game = .ok j → atomEq i j = false) := by
  unfold match_pinnacle_to_betbck at h
  obtain ⟨games, _, h⟩ := bind_ok_inv h
  obtain ⟨gl, _, h⟩ := bind_ok_inv h
  obtain ⟨ebs, _, h⟩ := bind_ok_inv h
  obtain ⟨st, hst, h⟩ := bind_ok_inv h
  dsimp only [] at h
  obtain ⟨u, _, h⟩ := bind_ok_inv h
  split at h
  · exact Except.noConfusion h
  · have hrecs : st.2.2 = recs := pure_ok_inv h
    have hinit : recsInv ([] : List Value) matched0 ([] : List MatchRec) :=
      ⟨fun r hr => absurd hr (List.not_mem_nil _), List.Pairwise.nil,
       fun r hr => absurd hr (List.not_mem_nil _), List.Pairwise.nil⟩
    have hinv := matchLoop_inv gl ([], matched0, []) st hst hinit
    rw [← hrecs]
    exact ⟨hinv.2.1, hinv.2.2.2⟩

/-- Witness: on the two-event, two-game sample the matcher returns records
whose reference ids and game ids are pairwise distinct. -/
theorem c7_match_uniqueness_witness :
    ∃ recs, match_pinnacle_to_betbck c7Ctx [] [c7Ev1, c7Ev2] c7Bck
        = .ok recs ∧
      (recs.Pairwise (fun a b =>
        atomEq a.pinnacle_event_id b.pinnacle_event_id = false) ∧
       recs.Pairwise (fun a b => ∀ i j, bckId a.betbck_game = .ok i →
         bckId b.betbck_game = .ok j → atomEq i j = false)) :=
  ⟨_, rfl, c7_match_uniqueness c7Ctx [] [c7Ev1, c7Ev2] c7Bck _ rfl⟩

end MatcherTheorems

end UB
